import Mathlib

set_option maxHeartbeats 1000000

/-!
Verification development for the streaming conversation relay of the
sin-spoilers repository.

The client side (`src/lib/useConversations.ts`) is embedded as an explicit
state machine: React's `useState` cells become the fields of `ConvState`,
each `set*` call becomes one recorded state snapshot, and the asynchronous
transport outcomes (the two `fetch` calls, the stream reader, `res.json()`)
become an explicit environment `Env`.  The server side
(`src/app/api/chat/route.ts`) is embedded as the function `POST` over a
`ServerEnv` that abstracts the upstream OpenAI calls.

Text is represented as a list of Unicode code points (`List Nat`); byte
streams as lists of byte chunks (`List (List Nat)`).
-/

/-! ## Incremental UTF-8 decoder

Model of the WHATWG `TextDecoder` ("utf-8", non-fatal) state machine that
`decoder.decode(value, { stream: true })` drives in the source.  `feedByte0`
handles a byte arriving with no multi-byte sequence in progress; `feedByte`
additionally handles continuation bytes, including the WHATWG "restore the
byte to the stream" reprocessing step on a malformed continuation byte.
-/

structure DecState where
  codePoint : Nat
  bytesNeeded : Nat
  bytesSeen : Nat
  lower : Nat
  upper : Nat
deriving DecidableEq

def DecState.start : DecState := ⟨0, 0, 0, 0x80, 0xBF⟩

def feedByte0 (b : Nat) : DecState × List Nat :=
  if b ≤ 0x7F then (DecState.start, [b])
  else if 0xC2 ≤ b ∧ b ≤ 0xDF then (⟨b % 32, 1, 0, 0x80, 0xBF⟩, [])
  else if 0xE0 ≤ b ∧ b ≤ 0xEF then
    (⟨b % 16, 2, 0, if b = 0xE0 then 0xA0 else 0x80,
      if b = 0xED then 0x9F else 0xBF⟩, [])
  else if 0xF0 ≤ b ∧ b ≤ 0xF4 then
    (⟨b % 8, 3, 0, if b = 0xF0 then 0x90 else 0x80,
      if b = 0xF4 then 0x8F else 0xBF⟩, [])
  else (DecState.start, [0xFFFD])

def feedByte (s : DecState) (b : Nat) : DecState × List Nat :=
  if s.bytesNeeded = 0 then feedByte0 b
  else if s.lower ≤ b ∧ b ≤ s.upper then
    (if s.bytesSeen + 1 = s.bytesNeeded then
      (DecState.start, [s.codePoint * 64 + b % 64])
    else
      (⟨s.codePoint * 64 + b % 64, s.bytesNeeded, s.bytesSeen + 1, 0x80, 0xBF⟩, []))
  else ((feedByte0 b).1, 0xFFFD :: (feedByte0 b).2)

def feedBytes (s : DecState) : List Nat → DecState × List Nat
  | [] => (s, [])
  | b :: bs =>
      ((feedBytes (feedByte s b).1 bs).1,
       (feedByte s b).2 ++ (feedBytes (feedByte s b).1 bs).2)

/-- End-of-stream flush of the WHATWG decoder: a pending incomplete sequence
yields one replacement character.  The source never performs this flush. -/
def decFlush (s : DecState) : List Nat := if s.bytesNeeded = 0 then [] else [0xFFFD]

/-- One-shot UTF-8 decoding of a whole byte sequence, replacement-char style
(what `new TextDecoder().decode(allBytes)` returns); this is the reference
"UTF-8 decoding of the concatenation" the specification speaks about. -/
def utf8DecodeFull (bs : List Nat) : List Nat :=
  (feedBytes DecState.start bs).2 ++ decFlush (feedBytes DecState.start bs).1

/-- Standard UTF-8 encoding of one Unicode scalar value. -/
def utf8EncodeChar (c : Nat) : List Nat :=
  if c < 0x80 then [c]
  else if c < 0x800 then [0xC0 + c / 64, 0x80 + c % 64]
  else if c < 0x10000 then
    [0xE0 + c / 4096, 0x80 + c / 64 % 64, 0x80 + c % 64]
  else
    [0xF0 + c / 262144, 0x80 + c / 4096 % 64, 0x80 + c / 64 % 64, 0x80 + c % 64]

def utf8EncodeList (cps : List Nat) : List Nat := (cps.map utf8EncodeChar).flatten

/-- Unicode scalar values: what a well-formed UTF-8 stream may encode. -/
def ValidCp (c : Nat) : Prop := c < 0xD800 ∨ (0xDFFF < c ∧ c < 0x110000)

instance (c : Nat) : Decidable (ValidCp c) := by unfold ValidCp; infer_instance

theorem feedBytes_append (a b : List Nat) : ∀ s : DecState,
    feedBytes s (a ++ b) =
      ((feedBytes (feedBytes s a).1 b).1,
       (feedBytes s a).2 ++ (feedBytes (feedBytes s a).1 b).2) := by
  induction a with
  | nil => intro s; simp [feedBytes]
  | cons x xs ih => intro s; simp [feedBytes, ih, List.append_assoc]

theorem feedBytes_encodeChar (c : Nat) (h : ValidCp c) :
    feedBytes DecState.start (utf8EncodeChar c) = (DecState.start, [c]) := by
  have hval : c < 0xD800 ∨ (0xDFFF < c ∧ c < 0x110000) := h
  rcases Nat.lt_or_ge c 0x80 with h1 | h1
  · -- one byte
    have e : utf8EncodeChar c = [c] := by unfold utf8EncodeChar; rw [if_pos h1]
    rw [e]
    have st1 : feedByte DecState.start c = (DecState.start, [c]) := by
      unfold feedByte feedByte0 DecState.start
      dsimp only
      rw [if_pos rfl, if_pos (by omega : c ≤ 0x7F)]
    simp only [feedBytes]
    rw [st1]; dsimp only
    simp
  · rcases Nat.lt_or_ge c 0x800 with h2 | h2
    · -- two bytes
      have e : utf8EncodeChar c = [0xC0 + c / 64, 0x80 + c % 64] := by
        unfold utf8EncodeChar; rw [if_neg (by omega), if_pos h2]
      rw [e]
      have st1 : feedByte DecState.start (0xC0 + c / 64) =
          (⟨c / 64, 1, 0, 0x80, 0xBF⟩, []) := by
        unfold feedByte feedByte0 DecState.start
        dsimp only
        rw [if_pos rfl, if_neg (by omega), if_pos (by omega)]
        have hm : (0xC0 + c / 64) % 32 = c / 64 := by omega
        rw [hm]
      have st2 : feedByte ⟨c / 64, 1, 0, 0x80, 0xBF⟩ (0x80 + c % 64) =
          (DecState.start, [c]) := by
        unfold feedByte
        dsimp only
        rw [if_neg (by omega), if_pos (by omega), if_pos rfl]
        have hm : (0x80 + c % 64) % 64 = c % 64 := by omega
        have hs : c / 64 * 64 + c % 64 = c := by omega
        rw [hm, hs]
      simp only [feedBytes]
      rw [st1]; dsimp only
      rw [st2]; dsimp only
      simp
    · rcases Nat.lt_or_ge c 0x10000 with h3 | h3
      · -- three bytes
        have e : utf8EncodeChar c =
            [0xE0 + c / 4096, 0x80 + c / 64 % 64, 0x80 + c % 64] := by
          unfold utf8EncodeChar; rw [if_neg (by omega), if_neg (by omega), if_pos h3]
        rw [e]
        have st1 : feedByte DecState.start (0xE0 + c / 4096) =
            (⟨c / 4096, 2, 0, if 0xE0 + c / 4096 = 0xE0 then 0xA0 else 0x80,
              if 0xE0 + c / 4096 = 0xED then 0x9F else 0xBF⟩, []) := by
          unfold feedByte feedByte0 DecState.start
          dsimp only
          rw [if_pos rfl, if_neg (by omega), if_neg (by omega), if_pos (by omega)]
          have hm : (0xE0 + c / 4096) % 16 = c / 4096 := by omega
          rw [hm]
        have hb2lo : (if 0xE0 + c / 4096 = 0xE0 then 0xA0 else 0x80 : Nat) ≤
            0x80 + c / 64 % 64 := by
          split_ifs with hE
          · omega
          · omega
        have hb2hi : 0x80 + c / 64 % 64 ≤
            (if 0xE0 + c / 4096 = 0xED then 0x9F else 0xBF : Nat) := by
          split_ifs with hE
          · omega
          · omega
        have st2 : feedByte ⟨c / 4096, 2, 0,
              if 0xE0 + c / 4096 = 0xE0 then 0xA0 else 0x80,
              if 0xE0 + c / 4096 = 0xED then 0x9F else 0xBF⟩ (0x80 + c / 64 % 64) =
            (⟨c / 4096 * 64 + c / 64 % 64, 2, 1, 0x80, 0xBF⟩, []) := by
          unfold feedByte
          dsimp only
          rw [if_neg (by omega), if_pos ⟨hb2lo, hb2hi⟩, if_neg (by omega)]
          have hm : (0x80 + c / 64 % 64) % 64 = c / 64 % 64 := by omega
          rw [hm]
        have st3 : feedByte ⟨c / 4096 * 64 + c / 64 % 64, 2, 1, 0x80, 0xBF⟩
              (0x80 + c % 64) = (DecState.start, [c]) := by
          unfold feedByte
          dsimp only
          rw [if_neg (by omega), if_pos (by omega), if_pos rfl]
          have hm : (0x80 + c % 64) % 64 = c % 64 := by omega
          have hs : (c / 4096 * 64 + c / 64 % 64) * 64 + c % 64 = c := by omega
          rw [hm, hs]
        simp only [feedBytes]
        rw [st1]; dsimp only
        rw [st2]; dsimp only
        rw [st3]; dsimp only
        simp
      · -- four bytes
        have e : utf8EncodeChar c =
            [0xF0 + c / 262144, 0x80 + c / 4096 % 64, 0x80 + c / 64 % 64,
             0x80 + c % 64] := by
          unfold utf8EncodeChar
          rw [if_neg (by omega), if_neg (by omega), if_neg (by omega)]
        rw [e]
        have st1 : feedByte DecState.start (0xF0 + c / 262144) =
            (⟨c / 262144, 3, 0, if 0xF0 + c / 262144 = 0xF0 then 0x90 else 0x80,
              if 0xF0 + c / 262144 = 0xF4 then 0x8F else 0xBF⟩, []) := by
          unfold feedByte feedByte0 DecState.start
          dsimp only
          rw [if_pos rfl, if_neg (by omega), if_neg (by omega), if_neg (by omega),
            if_pos (by omega)]
          have hm : (0xF0 + c / 262144) % 8 = c / 262144 := by omega
          rw [hm]
        have hb2lo : (if 0xF0 + c / 262144 = 0xF0 then 0x90 else 0x80 : Nat) ≤
            0x80 + c / 4096 % 64 := by
          split_ifs with hF
          · omega
          · omega
        have hb2hi : 0x80 + c / 4096 % 64 ≤
            (if 0xF0 + c / 262144 = 0xF4 then 0x8F else 0xBF : Nat) := by
          split_ifs with hF
          · omega
          · omega
        have st2 : feedByte ⟨c / 262144, 3, 0,
              if 0xF0 + c / 262144 = 0xF0 then 0x90 else 0x80,
              if 0xF0 + c / 262144 = 0xF4 then 0x8F else 0xBF⟩ (0x80 + c / 4096 % 64) =
            (⟨c / 262144 * 64 + c / 4096 % 64, 3, 1, 0x80, 0xBF⟩, []) := by
          unfold feedByte
          dsimp only
          rw [if_neg (by omega), if_pos ⟨hb2lo, hb2hi⟩, if_neg (by omega)]
          have hm : (0x80 + c / 4096 % 64) % 64 = c / 4096 % 64 := by omega
          rw [hm]
        have st3 : feedByte ⟨c / 262144 * 64 + c / 4096 % 64, 3, 1, 0x80, 0xBF⟩
              (0x80 + c / 64 % 64) =
            (⟨(c / 262144 * 64 + c / 4096 % 64) * 64 + c / 64 % 64, 3, 2, 0x80,
              0xBF⟩, []) := by
          unfold feedByte
          dsimp only
          rw [if_neg (by omega), if_pos (by omega), if_neg (by omega)]
          have hm : (0x80 + c / 64 % 64) % 64 = c / 64 % 64 := by omega
          rw [hm]
        have st4 : feedByte
              ⟨(c / 262144 * 64 + c / 4096 % 64) * 64 + c / 64 % 64, 3, 2, 0x80, 0xBF⟩
              (0x80 + c % 64) = (DecState.start, [c]) := by
          unfold feedByte
          dsimp only
          rw [if_neg (by omega), if_pos (by omega), if_pos rfl]
          have hm : (0x80 + c % 64) % 64 = c % 64 := by omega
          have hs : ((c / 262144 * 64 + c / 4096 % 64) * 64 + c / 64 % 64) * 64 +
              c % 64 = c := by omega
          rw [hm, hs]
        simp only [feedBytes]
        rw [st1]; dsimp only
        rw [st2]; dsimp only
        rw [st3]; dsimp only
        rw [st4]; dsimp only
        simp

theorem feedBytes_encodeList (cps : List Nat) (h : ∀ c ∈ cps, ValidCp c) :
    feedBytes DecState.start (utf8EncodeList cps) = (DecState.start, cps) := by
  induction cps with
  | nil => simp [utf8EncodeList, feedBytes]
  | cons c cs ih =>
      have hc : ValidCp c := h c (List.mem_cons_self ..)
      have hcs : ∀ x ∈ cs, ValidCp x := fun x hx => h x (List.mem_cons_of_mem _ hx)
      have : utf8EncodeList (c :: cs) = utf8EncodeChar c ++ utf8EncodeList cs := by
        simp [utf8EncodeList]
      rw [this, feedBytes_append, feedBytes_encodeChar c hc, ih hcs]
      simp

theorem utf8DecodeFull_encodeList (cps : List Nat) (h : ∀ c ∈ cps, ValidCp c) :
    utf8DecodeFull (utf8EncodeList cps) = cps := by
  unfold utf8DecodeFull
  rw [feedBytes_encodeList cps h]
  simp [decFlush, DecState.start]

/-! ## Client data model (`src/lib/useConversations.ts`)

`crypto.randomUUID()` results are modelled by the constructor `MsgId.uuid`
over a supply counter; the reserved placeholder id `"__stream"` by
`MsgId.stream`.  (A random UUID is a 36-character hyphenated hex string and
can never equal the eight-character sentinel `"__stream"`, which the sum
type encodes.)
-/

inductive ChatRole
  | user
  | assistant
  | system
deriving DecidableEq

inductive MsgId
  | uuid (n : Nat)
  | stream
deriving DecidableEq

structure ChatMessage where
  id : MsgId
  role : ChatRole
  content : List Nat
deriving DecidableEq

structure Inference where
  mediaType : List Nat
  title : List Nat
  position : List Nat
deriving DecidableEq

/-- The four `useState` cells of the hook, plus the id supply for
`crypto.randomUUID()`. -/
structure ConvState where
  messages : List ChatMessage
  isLoading : Bool
  isStreaming : Bool
  inference : Option Inference
  nextId : Nat
deriving DecidableEq

/-- A `{role, content}` pair as serialized into a request body (ids are
stripped by `messages.map(({role, content}) => ({role, content}))`). -/
structure APIMsg where
  role : ChatRole
  content : List Nat
deriving DecidableEq

/-- JSON body of a request the hook issues to `/api/chat`.  Fields the
source leaves out of the JSON literal are recorded with the value the
endpoint's `Boolean(...)` / `?? ` coercion gives them (`stream` absent ↦
`false`, `inferOnly` absent ↦ `false`, `lastAnswer` absent ↦ `none`). -/
structure RequestBody where
  stream : Bool
  inferOnly : Bool
  lastAnswer : Option (List Nat)
  messages : List APIMsg
deriving DecidableEq

/-- A thrown JavaScript value as seen by `catch (err)`: either an `Error`
instance carrying `err.message` (this includes the `AbortError` a cancelled
`fetch`/`read` rejects with), or any non-`Error` value. -/
inductive ErrVal
  | error (msg : List Nat)
  | nonError
deriving DecidableEq

/-- Outcome of an awaited step: normal completion or a thrown value. -/
inductive Try (α : Type)
  | exn (e : ErrVal)
  | val (a : α)
deriving DecidableEq

/-- Observable outcome of the streaming `fetch`: response flags, the byte
chunks the reader delivers, and an optional rejection of a `read()` call
after those chunks (e.g. a network drop or an abort mid-stream). -/
structure StreamRes where
  ok : Bool
  hasBody : Bool
  chunks : List (List Nat)
  midErr : Option ErrVal
deriving DecidableEq

/-- Parsed JSON of the classification response (`data`). -/
structure InferData where
  inference : Option Inference
  error : Option (List Nat)
deriving DecidableEq

/-- Observable outcome of the classification `fetch`: `res.ok`,
`res.status`, and the outcome of `res.json()`. -/
structure InferRes where
  ok : Bool
  status : Nat
  json : Try InferData
deriving DecidableEq

/-- The transport environment one `send` call runs against. -/
structure Env where
  streamRes : Try StreamRes
  inferRes : Try InferRes
deriving DecidableEq

/-! ## Text constants and small helpers from the source -/

def strCps (s : String) : List Nat := s.data.map Char.toNat

def unknownErrorText : List Nat := strCps "Unknown error"

def fallbackErrorText : List Nat :=
  strCps "Lo siento, hubo un problema al responder. Intenta de nuevo en un momento."

def requestFailedText (status : Nat) : List Nat :=
  strCps "Request failed: " ++ (Nat.toDigits 10 status).map Char.toNat

/-- The caret glyph `"▍"` appended to the placeholder for display. -/
def cursorGlyph : Nat := 0x258D

/-- JavaScript `String.prototype.trim` whitespace (WhiteSpace ∪
LineTerminator). -/
def isJsWs (c : Nat) : Bool :=
  decide ((0x9 ≤ c ∧ c ≤ 0xD) ∨ c = 0x20 ∨ c = 0xA0 ∨ c = 0x1680 ∨
    (0x2000 ≤ c ∧ c ≤ 0x200A) ∨ c = 0x2028 ∨ c = 0x2029 ∨ c = 0x202F ∨
    c = 0x205F ∨ c = 0x3000 ∨ c = 0xFEFF)

def jsTrim (l : List Nat) : List Nat :=
  ((l.dropWhile isJsWs).reverse.dropWhile isJsWs).reverse

/-- `err instanceof Error ? err.message : "Unknown error"` followed by
`message || "Lo siento, …"`. -/
def errContent (e : ErrVal) : List Nat :=
  let message := match e with
    | .error m => m
    | .nonError => unknownErrorText
  if message = [] then fallbackErrorText else message

/-- `new Error(data?.error || `Request failed: ${res.status}`)`. -/
def inferThrowMsg (data : InferData) (status : Nat) : List Nat :=
  match data.error with
  | some m => if m = [] then requestFailedText status else m
  | none => requestFailedText status

/-! ## The `send` state machine -/

/-- One streaming update:
`prev.filter(m => m.role !== "assistant" || m.id !== "__stream")` followed by
appending the placeholder with the accumulated text plus the cursor glyph. -/
def streamUpd (msgs : List ChatMessage) (acc : List Nat) : List ChatMessage :=
  msgs.filter (fun m => decide (¬(m.role = ChatRole.assistant ∧ m.id = MsgId.stream)))
    ++ [⟨MsgId.stream, ChatRole.assistant, acc ++ [cursorGlyph]⟩]

/-- The stream-end update: drop the placeholder by id, then append the final
assistant message when the accumulated text is non-empty. -/
def finalizeMsgs (msgs : List ChatMessage) (acc : List Nat) (nid : Nat) :
    List ChatMessage :=
  let base := msgs.filter (fun m => decide (¬(m.id = MsgId.stream)))
  if acc = [] then base
  else base ++ [⟨MsgId.uuid nid, ChatRole.assistant, acc⟩]

/-- The `catch` block: append one assistant message with the error text. -/
def appendErrMsg (s : ConvState) (e : ErrVal) : ConvState :=
  { s with
    messages := s.messages ++ [⟨MsgId.uuid s.nextId, ChatRole.assistant, errContent e⟩],
    nextId := s.nextId + 1 }

/-- The `finally` block: `setIsLoading(false)`. -/
def clearLoading (s : ConvState) : ConvState := { s with isLoading := false }

/-- Result of running the `while (true) { reader.read() … }` loop over the
chunks the reader delivers: final state, accumulated decoded text, decoder
state, and the intermediate state snapshots (one per `setMessages`). -/
structure LoopOut where
  state : ConvState
  acc : List Nat
  ds : DecState
  snaps : List ConvState
deriving DecidableEq

def streamLoop (s : ConvState) (acc : List Nat) (ds : DecState) :
    List (List Nat) → LoopOut
  | [] => ⟨s, acc, ds, []⟩
  | c :: cs =>
      let p := feedBytes ds c
      let acc2 := acc ++ p.2
      let s2 := { s with messages := streamUpd s.messages acc2 }
      let r := streamLoop s2 acc2 p.1 cs
      ⟨r.state, r.acc, r.ds, s2 :: r.snaps⟩

/-- `[{role:"system", content:systemMessage}, ...messages.map(...), {role:"user", content:text}]`. -/
def mkPayload (sys : List Nat) (base : List APIMsg) (text : List Nat) : List APIMsg :=
  ⟨ChatRole.system, sys⟩ :: base ++ [⟨ChatRole.user, text⟩]

/-! The successive states `send` produces, named after the `set*` call that
creates each (the hook's four state cells plus the id supply). -/

/-- After `setIsLoading(true)`. -/
def afterLoading (s : ConvState) : ConvState := { s with isLoading := true }

/-- After `setMessages(prev => [...prev, userMsg])`. -/
def afterUserMsg (s : ConvState) (text : List Nat) : ConvState :=
  { afterLoading s with
    messages := (afterLoading s).messages ++
      [⟨MsgId.uuid s.nextId, ChatRole.user, text⟩],
    nextId := s.nextId + 1 }

/-- After `setIsStreaming(true)`. -/
def afterStreamFlag (s : ConvState) (text : List Nat) : ConvState :=
  { afterUserMsg s text with isStreaming := true }

/-- The message payload of both request bodies: built from the `messages`
closure variable (the state at call time) plus the new user text. -/
def payloadOf (sys : List Nat) (s : ConvState) (text : List Nat) : List APIMsg :=
  mkPayload sys (s.messages.map fun m => APIMsg.mk m.role m.content) text

/-- Body of the streaming request (`{stream: true, messages}`). -/
def streamReqOf (sys : List Nat) (s : ConvState) (text : List Nat) : RequestBody :=
  ⟨true, false, none, payloadOf sys s text⟩

/-- The read loop, run only when `streamRes.ok && streamRes.body`. -/
def loopOf (s : ConvState) (text : List Nat) (sr : StreamRes) : LoopOut :=
  if sr.ok = true ∧ sr.hasBody = true then
    streamLoop (afterStreamFlag s text) [] DecState.start sr.chunks
  else ⟨afterStreamFlag s text, [], DecState.start, []⟩

/-- After `setIsStreaming(false)`. -/
def afterStreamEnd (s : ConvState) (text : List Nat) (sr : StreamRes) : ConvState :=
  { (loopOf s text sr).state with isStreaming := false }

/-- After the stream-end `setMessages` (placeholder removal / finalization). -/
def afterFinalize (s : ConvState) (text : List Nat) (sr : StreamRes) : ConvState :=
  { afterStreamEnd s text sr with
    messages := finalizeMsgs (afterStreamEnd s text sr).messages
      (loopOf s text sr).acc (afterStreamEnd s text sr).nextId,
    nextId := if (loopOf s text sr).acc = [] then (afterStreamEnd s text sr).nextId
      else (afterStreamEnd s text sr).nextId + 1 }

/-- After `setInference(data.inference)`. -/
def afterInference (s : ConvState) (text : List Nat) (sr : StreamRes)
    (inf : Inference) : ConvState :=
  { afterFinalize s text sr with inference := some inf }

/-- Body of the classification request
(`{inferOnly: true, lastAnswer, messages}`). -/
def inferReqOf (sys : List Nat) (s : ConvState) (text : List Nat)
    (sr : StreamRes) : RequestBody :=
  ⟨false, true, some (loopOf s text sr).acc, payloadOf sys s text⟩

/-- The two states the `catch`/`finally` blocks produce after a throw. -/
def errTail (p : ConvState) (e : ErrVal) : List ConvState :=
  [appendErrMsg p e, clearLoading (appendErrMsg p e)]

/-- The first three snapshots, common to every accepted submission. -/
def pre3of (s : ConvState) (text : List Nat) : List ConvState :=
  [afterLoading s, afterUserMsg s text, afterStreamFlag s text]

/-- The rejection the read loop observes: `midErr` is only reachable when
the loop actually ran (`streamRes.ok && streamRes.body`). -/
def effMidErr (sr : StreamRes) : Option ErrVal :=
  if sr.ok = true ∧ sr.hasBody = true then sr.midErr else none

/-- The `send` callback of `useConversations`, as a function from the
transport environment and the pre-call state to the list of state snapshots
(one per `set*` call, in program order) and the list of request bodies
passed to `fetch`.  `sys` is the hook's `systemMessage`
(`options?.systemPrompt ?? base`). -/
def send (sys : List Nat) (env : Env) (s : ConvState) (userText : List Nat) :
    List ConvState × List RequestBody :=
  let text := jsTrim userText
  if text = [] ∨ s.isLoading = true then ([], [])
  else
    let pre3 := pre3of s text
    match env.streamRes with
    | .exn e =>
        -- the streaming `fetch` itself threw
        (pre3 ++ errTail (afterStreamFlag s text) e, [streamReqOf sys s text])
    | .val sr =>
        let lo := loopOf s text sr
        match effMidErr sr with
        | some e =>
            -- a `read()` rejected after the delivered chunks
            (pre3 ++ lo.snaps ++ errTail lo.state e, [streamReqOf sys s text])
        | none =>
            let s5 := afterFinalize s text sr
            match env.inferRes with
            | .exn e =>
                (pre3 ++ lo.snaps ++ [afterStreamEnd s text sr, s5] ++ errTail s5 e,
                 [streamReqOf sys s text, inferReqOf sys s text sr])
            | .val ir =>
                match ir.json with
                | .exn e =>
                    (pre3 ++ lo.snaps ++ [afterStreamEnd s text sr, s5] ++
                       errTail s5 e,
                     [streamReqOf sys s text, inferReqOf sys s text sr])
                | .val data =>
                    if ir.ok = true then
                      match data.inference with
                      | some inf =>
                          (pre3 ++ lo.snaps ++ [afterStreamEnd s text sr, s5,
                             afterInference s text sr inf,
                             clearLoading (afterInference s text sr inf)],
                           [streamReqOf sys s text, inferReqOf sys s text sr])
                      | none =>
                          (pre3 ++ lo.snaps ++ [afterStreamEnd s text sr, s5,
                             clearLoading s5],
                           [streamReqOf sys s text, inferReqOf sys s text sr])
                    else
                      (pre3 ++ lo.snaps ++ [afterStreamEnd s text sr, s5] ++
                         errTail s5 (ErrVal.error (inferThrowMsg data ir.status)),
                       [streamReqOf sys s text, inferReqOf sys s text sr])

/-- The `clear` callback: `abortRef.current?.abort(); setMessages([])`.
(The abort itself is observable only as the rejection it causes in the
in-flight `send`, modelled by `Env`; `clear` touches no other state cell.) -/
def clear (s : ConvState) : ConvState := { s with messages := [] }

/-! ## Server model (`src/app/api/chat/route.ts`)

The upstream OpenAI SDK calls are abstracted by `ServerEnv`: each awaited
call either throws or yields the text the handler extracts from it, and
`JSON.parse` of the classifier's output is an oracle returning the
(string-coerced, `|| ""`-defaulted) fields when the text parses. -/

/-- `JSON.parse(text)` outcome for the classifier output: `none` when the
parse throws, otherwise the three fields after `String(parsed.x || "")`
(a falsy field is recorded as `none` and coerces to `""`). -/
structure RawInference where
  mediaType : Option (List Nat)
  title : Option (List Nat)
  position : Option (List Nat)
deriving DecidableEq

/-- Outcome of one awaited upstream call: it throws, or yields a value. -/
inductive Up (α : Type)
  | fail
  | ok (a : α)
deriving DecidableEq

structure ServerEnv where
  /-- `process.env.NEXT_PUBLIC_OPENAI_API_KEY`. -/
  apiKey : Option (List Nat)
  /-- Conversations-API attempt: throws, or the best-effort extracted
  `outputText` (possibly empty). -/
  convUpstream : Up (List Nat)
  /-- Streaming chat-completions call: throws at creation, or yields the
  delta texts. -/
  streamUpstream : Up (List (List Nat))
  /-- Non-streaming chat-completions call: throws, or yields
  `choices[0]?.message?.content ?? ""`. -/
  ccUpstream : Up (List Nat)
  /-- The classifier's chat-completions call inside `extractInference`:
  throws, or yields `choices[0]?.message?.content` (possibly absent). -/
  inferUpstream : Up (Option (List Nat))
  /-- `JSON.parse` oracle for the classifier output text. -/
  parseInference : List Nat → Option RawInference

structure JsonBody where
  message : Option (List Nat)
  inference : Option Inference
  error : Option (List Nat)
  provider : Option (List Nat)
deriving DecidableEq

inductive ApiResponse
  | json (status : Nat) (body : JsonBody)
  | byteStream (chunks : List (List Nat))
deriving DecidableEq

/-- JSON body of a request as read by the route handler. -/
structure ServerReqBody where
  messages : Option (List APIMsg)
  stream : Bool
  inferOnly : Bool
  lastAnswer : Option (List Nat)
deriving DecidableEq

def missingKeyText : List Nat := strCps "Missing NEXT_PUBLIC_OPENAI_API_KEY on server"
def failedGenText : List Nat := strCps "Failed to generate response"
def emptyModelText : List Nat := strCps "Empty response from model"
def providerConversations : List Nat := strCps "conversations"
def providerChatCompletions : List Nat := strCps "chat.completions"

/-- The inference with all three fields at their unknown representation
(empty strings). -/
def unknownInference : Inference := ⟨[], [], []⟩

/-- `extractInference`: never throws; any internal failure yields the
unknown inference. -/
def extractInference (env : ServerEnv) (history : List APIMsg)
    (lastAnswer : List Nat) : Inference :=
  match env.inferUpstream with
  | .fail => unknownInference
  | .ok content =>
      let text := content.getD []
      match env.parseInference text with
      | none => unknownInference
      | some p => ⟨p.mediaType.getD [], p.title.getD [], p.position.getD []⟩

/-- The `POST` handler of `/api/chat`. -/
def POST (env : ServerEnv) (body : ServerReqBody) : ApiResponse :=
  let messages := body.messages.getD []
  let lastAnswer := body.lastAnswer.getD []
  match env.apiKey with
  | none => .json 500 ⟨none, none, some missingKeyText, none⟩
  | some _ =>
    if body.inferOnly = true then
      .json 200 ⟨none, some (extractInference env messages lastAnswer), none, none⟩
    else
      -- Conversations-API attempt (its throw is swallowed)
      let convText := match env.convUpstream with
        | .fail => []
        | .ok t => t
      if convText ≠ [] then
        .json 200 ⟨some convText, some (extractInference env messages convText),
          none, some providerConversations⟩
      else if body.stream = true then
        match env.streamUpstream with
        | .fail => .json 500 ⟨none, none, some failedGenText, none⟩
        | .ok deltas =>
            .byteStream ((deltas.filter fun d => decide (¬(d = []))).map utf8EncodeList)
      else
        match env.ccUpstream with
        | .fail => .json 500 ⟨none, none, some failedGenText, none⟩
        | .ok t =>
            if t ≠ [] then
              .json 200 ⟨some t, some (extractInference env messages t), none,
                some providerChatCompletions⟩
            else .json 502 ⟨none, none, some emptyModelText, none⟩

/-! ## Placeholder invariants and loop characterization -/

/-- No message carries the reserved placeholder id. -/
def noPh (msgs : List ChatMessage) : Prop := ∀ m ∈ msgs, ¬(m.id = MsgId.stream)

instance (msgs : List ChatMessage) : Decidable (noPh msgs) := by
  unfold noPh; infer_instance

/-- Number of placeholder entries (messages with id `"__stream"`). -/
def phCount (msgs : List ChatMessage) : Nat :=
  (msgs.filter fun m => decide (m.id = MsgId.stream)).length

/-- Well-formedness of a reachable message list: at most one placeholder,
and any placeholder has the assistant role. -/
def WFMsgs (msgs : List ChatMessage) : Prop :=
  phCount msgs ≤ 1 ∧ ∀ m ∈ msgs, m.id = MsgId.stream → m.role = ChatRole.assistant

instance (msgs : List ChatMessage) : Decidable (WFMsgs msgs) := by
  unfold WFMsgs; infer_instance

/-- The claim's placeholder invariant: at most one placeholder, and when
present it is the last element (equivalently: no placeholder anywhere
before the last position). -/
def phOk (msgs : List ChatMessage) : Prop :=
  phCount msgs ≤ 1 ∧ ∀ m ∈ msgs.dropLast, ¬(m.id = MsgId.stream)

instance (msgs : List ChatMessage) : Decidable (phOk msgs) := by
  unfold phOk; infer_instance

theorem phCount_append (a b : List ChatMessage) :
    phCount (a ++ b) = phCount a + phCount b := by
  simp [phCount, List.filter_append]

theorem phCount_nil : phCount [] = 0 := rfl

theorem phCount_eq_zero (msgs : List ChatMessage) (h : noPh msgs) :
    phCount msgs = 0 := by
  simp only [phCount, List.length_eq_zero, List.filter_eq_nil_iff]
  intro m hm
  simpa using h m hm

theorem noPh_append (a b : List ChatMessage) (ha : noPh a) (hb : noPh b) :
    noPh (a ++ b) := by
  intro m hm
  rcases List.mem_append.mp hm with h | h
  · exact ha m h
  · exact hb m h

theorem noPh_filter (msgs : List ChatMessage) :
    noPh (msgs.filter fun m => decide (¬(m.id = MsgId.stream))) := by
  intro m hm
  have := List.of_mem_filter hm
  simpa using this

theorem filter_eq_self_of_noPh (msgs : List ChatMessage) (h : noPh msgs) :
    (msgs.filter fun m => decide (¬(m.id = MsgId.stream))) = msgs := by
  rw [List.filter_eq_self]
  intro m hm
  simpa using h m hm

theorem WFMsgs_of_noPh (msgs : List ChatMessage) (h : noPh msgs) : WFMsgs msgs := by
  refine ⟨by rw [phCount_eq_zero msgs h]; omega, ?_⟩
  intro m hm hid
  exact absurd hid (h m hm)

/-- After `streamUpd` on a well-formed list the result is a no-placeholder
prefix followed by exactly the new placeholder. -/
theorem streamUpd_shape (msgs : List ChatMessage) (acc : List Nat)
    (h : ∀ m ∈ msgs, m.id = MsgId.stream → m.role = ChatRole.assistant) :
    ∃ base, noPh base ∧
      streamUpd msgs acc =
        base ++ [⟨MsgId.stream, ChatRole.assistant, acc ++ [cursorGlyph]⟩] := by
  refine ⟨msgs.filter
    (fun m => decide (¬(m.role = ChatRole.assistant ∧ m.id = MsgId.stream))), ?_, rfl⟩
  intro m hm hid
  have hmem := List.mem_of_mem_filter hm
  have hp := List.of_mem_filter hm
  have hnot : ¬m.role = ChatRole.assistant ∨ ¬m.id = MsgId.stream := by simpa using hp
  rcases hnot with hnot | hnot
  · exact hnot (h m hmem hid)
  · exact hnot hid

/-- `streamUpd` on a no-placeholder prefix plus (optionally) the previous
placeholder replaces the placeholder and keeps the prefix verbatim. -/
theorem streamUpd_eq (base rest : List ChatMessage) (acc : List Nat)
    (hb : noPh base)
    (hr : rest = [] ∨ ∃ t, rest = [⟨MsgId.stream, ChatRole.assistant, t⟩]) :
    streamUpd (base ++ rest) acc =
      base ++ [⟨MsgId.stream, ChatRole.assistant, acc ++ [cursorGlyph]⟩] := by
  unfold streamUpd
  rw [List.filter_append]
  have h1 : (base.filter
      (fun m => decide (¬(m.role = ChatRole.assistant ∧ m.id = MsgId.stream)))) = base := by
    rw [List.filter_eq_self]
    intro m hm
    have := hb m hm
    simp only [decide_eq_true_eq]
    tauto
  have h2 : (rest.filter
      (fun m => decide (¬(m.role = ChatRole.assistant ∧ m.id = MsgId.stream)))) = [] := by
    rcases hr with h | ⟨t, h⟩ <;> subst h <;> simp
  rw [h1, h2]
  simp

theorem WFMsgs_append_uuid (msgs : List ChatMessage) (n : Nat) (r : ChatRole)
    (c : List Nat) (h : WFMsgs msgs) :
    WFMsgs (msgs ++ [⟨MsgId.uuid n, r, c⟩]) := by
  constructor
  · rw [phCount_append]
    have : phCount [(⟨MsgId.uuid n, r, c⟩ : ChatMessage)] = 0 := by simp [phCount]
    have h1 := h.1
    omega
  · intro m hm hid
    rcases List.mem_append.mp hm with hmem | hmem
    · exact h.2 m hmem hid
    · simp only [List.mem_singleton] at hmem
      subst hmem
      simp at hid

theorem WFMsgs_base_ph (base : List ChatMessage) (t : List Nat) (hb : noPh base) :
    WFMsgs (base ++ [⟨MsgId.stream, ChatRole.assistant, t⟩]) := by
  constructor
  · rw [phCount_append, phCount_eq_zero base hb]
    simp [phCount]
  · intro m hm hid
    rcases List.mem_append.mp hm with hmem | hmem
    · exact absurd hid (hb m hmem)
    · simp only [List.mem_singleton] at hmem
      subst hmem
      rfl

theorem phOk_of_noPh (msgs : List ChatMessage) (h : noPh msgs) : phOk msgs :=
  ⟨by rw [phCount_eq_zero msgs h]; omega, fun m hm => h m (List.dropLast_subset _ hm)⟩

theorem phOk_base_ph (base : List ChatMessage) (t : List Nat) (hb : noPh base) :
    phOk (base ++ [⟨MsgId.stream, ChatRole.assistant, t⟩]) := by
  constructor
  · rw [phCount_append, phCount_eq_zero base hb]
    simp [phCount]
  · intro m hm
    rw [List.dropLast_concat] at hm
    exact hb m hm

theorem streamLoop_acc (cs : List (List Nat)) : ∀ s acc ds,
    (streamLoop s acc ds cs).acc = acc ++ (feedBytes ds cs.flatten).2 ∧
    (streamLoop s acc ds cs).ds = (feedBytes ds cs.flatten).1 := by
  induction cs with
  | nil => intro s acc ds; simp [streamLoop, feedBytes]
  | cons c cs ih =>
      intro s acc ds
      simp only [streamLoop]
      have h := ih { s with messages := streamUpd s.messages (acc ++ (feedBytes ds c).2) }
        (acc ++ (feedBytes ds c).2) (feedBytes ds c).1
      refine ⟨?_, ?_⟩
      · rw [h.1, List.flatten_cons, feedBytes_append]
        simp [List.append_assoc]
      · rw [h.2, List.flatten_cons, feedBytes_append]

theorem streamLoop_flags (cs : List (List Nat)) : ∀ s acc ds,
    (streamLoop s acc ds cs).state.isLoading = s.isLoading ∧
    (streamLoop s acc ds cs).state.isStreaming = s.isStreaming ∧
    (streamLoop s acc ds cs).state.inference = s.inference ∧
    (streamLoop s acc ds cs).state.nextId = s.nextId := by
  induction cs with
  | nil => intro s acc ds; simp [streamLoop]
  | cons c cs ih =>
      intro s acc ds
      simp only [streamLoop]
      exact ih { s with messages := streamUpd s.messages (acc ++ (feedBytes ds c).2) }
        (acc ++ (feedBytes ds c).2) (feedBytes ds c).1

theorem streamLoop_snaps_flags (cs : List (List Nat)) : ∀ s acc ds,
    ∀ st ∈ (streamLoop s acc ds cs).snaps,
      st.isLoading = s.isLoading ∧ st.isStreaming = s.isStreaming ∧
      st.inference = s.inference ∧ st.nextId = s.nextId := by
  induction cs with
  | nil => intro s acc ds st hst; simp [streamLoop] at hst
  | cons c cs ih =>
      intro s acc ds st hst
      simp only [streamLoop, List.mem_cons] at hst
      rcases hst with h | h
      · subst h; exact ⟨rfl, rfl, rfl, rfl⟩
      · exact ih { s with messages := streamUpd s.messages (acc ++ (feedBytes ds c).2) }
          (acc ++ (feedBytes ds c).2) (feedBytes ds c).1 st h

theorem streamLoop_msgs (cs : List (List Nat)) : ∀ s acc ds base rest,
    noPh base →
    (rest = [] ∨ ∃ t, rest = [⟨MsgId.stream, ChatRole.assistant, t⟩]) →
    s.messages = base ++ rest →
    ((cs = [] → (streamLoop s acc ds cs).state.messages = s.messages) ∧
     (cs ≠ [] → (streamLoop s acc ds cs).state.messages =
        base ++ [⟨MsgId.stream, ChatRole.assistant,
          (acc ++ (feedBytes ds cs.flatten).2) ++ [cursorGlyph]⟩]) ∧
     (∀ st ∈ (streamLoop s acc ds cs).snaps,
        ∃ t, st.messages = base ++ [⟨MsgId.stream, ChatRole.assistant, t⟩])) := by
  induction cs with
  | nil =>
      intro s acc ds base rest hb hr hs
      refine ⟨fun _ => rfl, fun h => absurd rfl h, ?_⟩
      intro st hst
      simp [streamLoop] at hst
  | cons c cs ih =>
      intro s acc ds base rest hb hr hs
      have hupd : streamUpd s.messages (acc ++ (feedBytes ds c).2) =
          base ++ [⟨MsgId.stream, ChatRole.assistant,
            (acc ++ (feedBytes ds c).2) ++ [cursorGlyph]⟩] := by
        rw [hs]
        exact streamUpd_eq base rest (acc ++ (feedBytes ds c).2) hb hr
      have ihh := ih { s with messages := streamUpd s.messages (acc ++ (feedBytes ds c).2) }
        (acc ++ (feedBytes ds c).2) (feedBytes ds c).1 base
        [⟨MsgId.stream, ChatRole.assistant, (acc ++ (feedBytes ds c).2) ++ [cursorGlyph]⟩]
        hb (Or.inr ⟨_, rfl⟩) hupd
      refine ⟨fun h => by simp at h, ?_, ?_⟩
      · intro _
        simp only [streamLoop]
        rcases Decidable.em (cs = []) with hcs | hcs
        · have h1 := ihh.1 hcs
          subst hcs
          rw [h1, hupd]
          simp [feedBytes_append]
        · have h2 := ihh.2.1 hcs
          rw [h2, List.flatten_cons, feedBytes_append]
          simp [List.append_assoc]
      · intro st hst
        simp only [streamLoop, List.mem_cons] at hst
        rcases hst with h | h
        · subst h
          exact ⟨_, hupd⟩
        · exact ihh.2.2 st h

theorem streamLoop_WF (cs : List (List Nat)) : ∀ s acc ds,
    WFMsgs s.messages →
    WFMsgs (streamLoop s acc ds cs).state.messages ∧
    ∀ st ∈ (streamLoop s acc ds cs).snaps, WFMsgs st.messages := by
  induction cs with
  | nil =>
      intro s acc ds h
      refine ⟨h, ?_⟩
      intro st hst
      simp [streamLoop] at hst
  | cons c cs ih =>
      intro s acc ds h
      obtain ⟨base, hbase, hshape⟩ :=
        streamUpd_shape s.messages (acc ++ (feedBytes ds c).2) h.2
      have hWF2 : WFMsgs (streamUpd s.messages (acc ++ (feedBytes ds c).2)) := by
        rw [hshape]
        exact WFMsgs_base_ph base _ hbase
      have ihh := ih { s with messages := streamUpd s.messages (acc ++ (feedBytes ds c).2) }
        (acc ++ (feedBytes ds c).2) (feedBytes ds c).1 hWF2
      refine ⟨ihh.1, ?_⟩
      intro st hst
      simp only [streamLoop, List.mem_cons] at hst
      rcases hst with hh | hh
      · subst hh
        exact hWF2
      · exact ihh.2 st hh

/-- The error, if any, that the classification stage turns into a throw:
a rejected `fetch`, a rejected `res.json()`, or the `Error` the code
constructs for a non-success classification response. -/
def classifyThrow : Try InferRes → Option ErrVal
  | .exn e => some e
  | .val ir =>
      match ir.json with
      | .exn e => some e
      | .val data =>
          if ir.ok = true then none
          else some (.error (inferThrowMsg data ir.status))

/-- The error the whole `try` block of `send` throws under environment
`env`, if any (mirrors `send`'s control flow). -/
def thrownError (env : Env) : Option ErrVal :=
  match env.streamRes with
  | .exn e => some e
  | .val sr =>
      match effMidErr sr with
      | some e => some e
      | none => classifyThrow env.inferRes

/-! ### Branch characterization of `send` -/

theorem send_trace_cases (sys : List Nat) (env : Env) (s : ConvState)
    (text : List Nat) (hg : ¬(jsTrim text = [] ∨ s.isLoading = true)) :
    (∃ e, env.streamRes = .exn e ∧
       send sys env s text =
         (pre3of s (jsTrim text) ++ errTail (afterStreamFlag s (jsTrim text)) e,
          [streamReqOf sys s (jsTrim text)])) ∨
    (∃ sr e, env.streamRes = .val sr ∧ effMidErr sr = some e ∧
       send sys env s text =
         (pre3of s (jsTrim text) ++ (loopOf s (jsTrim text) sr).snaps ++
            errTail (loopOf s (jsTrim text) sr).state e,
          [streamReqOf sys s (jsTrim text)])) ∨
    (∃ sr e, env.streamRes = .val sr ∧ effMidErr sr = none ∧
       classifyThrow env.inferRes = some e ∧
       send sys env s text =
         (pre3of s (jsTrim text) ++ (loopOf s (jsTrim text) sr).snaps ++
            [afterStreamEnd s (jsTrim text) sr, afterFinalize s (jsTrim text) sr] ++
            errTail (afterFinalize s (jsTrim text) sr) e,
          [streamReqOf sys s (jsTrim text), inferReqOf sys s (jsTrim text) sr])) ∨
    (∃ sr ir data inf, env.streamRes = .val sr ∧ effMidErr sr = none ∧
       env.inferRes = .val ir ∧ ir.json = .val data ∧ ir.ok = true ∧
       data.inference = some inf ∧
       send sys env s text =
         (pre3of s (jsTrim text) ++ (loopOf s (jsTrim text) sr).snaps ++
            [afterStreamEnd s (jsTrim text) sr, afterFinalize s (jsTrim text) sr,
             afterInference s (jsTrim text) sr inf,
             clearLoading (afterInference s (jsTrim text) sr inf)],
          [streamReqOf sys s (jsTrim text), inferReqOf sys s (jsTrim text) sr])) ∨
    (∃ sr ir data, env.streamRes = .val sr ∧ effMidErr sr = none ∧
       env.inferRes = .val ir ∧ ir.json = .val data ∧ ir.ok = true ∧
       data.inference = none ∧
       send sys env s text =
         (pre3of s (jsTrim text) ++ (loopOf s (jsTrim text) sr).snaps ++
            [afterStreamEnd s (jsTrim text) sr, afterFinalize s (jsTrim text) sr,
             clearLoading (afterFinalize s (jsTrim text) sr)],
          [streamReqOf sys s (jsTrim text), inferReqOf sys s (jsTrim text) sr])) := by
  rcases henv : env.streamRes with e | sr
  · refine Or.inl ⟨e, rfl, ?_⟩
    simp only [send, if_neg hg, henv]
  · rcases hm : effMidErr sr with _ | e
    · rcases hi : env.inferRes with e | ir
      · refine Or.inr (Or.inr (Or.inl ⟨sr, e, rfl, hm, rfl, ?_⟩))
        simp only [send, if_neg hg, henv, hm, hi]
      · rcases hj : ir.json with e | data
        · refine Or.inr (Or.inr (Or.inl ⟨sr, e, rfl, hm, ?_, ?_⟩))
          · simp only [classifyThrow, hj]
          · simp only [send, if_neg hg, henv, hm, hi, hj]
        · by_cases hok : ir.ok = true
          · rcases hd : data.inference with _ | inf
            · refine Or.inr (Or.inr (Or.inr (Or.inr
                ⟨sr, ir, data, rfl, hm, rfl, hj, hok, hd, ?_⟩)))
              simp only [send, if_neg hg, henv, hm, hi, hj, if_pos hok, hd]
            · refine Or.inr (Or.inr (Or.inr (Or.inl
                ⟨sr, ir, data, inf, rfl, hm, rfl, hj, hok, hd, ?_⟩)))
              simp only [send, if_neg hg, henv, hm, hi, hj, if_pos hok, hd]
          · refine Or.inr (Or.inr (Or.inl ⟨sr,
              .error (inferThrowMsg data ir.status), rfl, hm, ?_, ?_⟩))
            · simp only [classifyThrow, hj]
              rw [if_neg hok]
            · simp only [send, if_neg hg, henv, hm, hi, hj]
              rw [if_neg hok]
    · refine Or.inr (Or.inl ⟨sr, e, rfl, hm, ?_⟩)
      simp only [send, if_neg hg, henv, hm]

/-! ### Field facts about the named intermediate states -/

theorem loopOf_state_flags (s : ConvState) (text : List Nat) (sr : StreamRes) :
    (loopOf s text sr).state.isLoading = true ∧
    (loopOf s text sr).state.isStreaming = true ∧
    (loopOf s text sr).state.inference = s.inference ∧
    (loopOf s text sr).state.nextId = s.nextId + 1 := by
  unfold loopOf
  split_ifs with h
  · exact streamLoop_flags sr.chunks (afterStreamFlag s text) [] DecState.start
  · exact ⟨rfl, rfl, rfl, rfl⟩

theorem loopOf_snaps_flags (s : ConvState) (text : List Nat) (sr : StreamRes) :
    ∀ st ∈ (loopOf s text sr).snaps,
      st.isLoading = true ∧ st.isStreaming = true ∧
      st.inference = s.inference ∧ st.nextId = s.nextId + 1 := by
  unfold loopOf
  split_ifs with h
  · intro st hst
    exact streamLoop_snaps_flags sr.chunks _ [] DecState.start st hst
  · intro st hst
    simp at hst

theorem mem_pre3_loading (s : ConvState) (text : List Nat) :
    ∀ st ∈ pre3of s text, st.isLoading = true := by
  intro st hst
  simp only [pre3of, List.mem_cons, List.not_mem_nil, or_false] at hst
  rcases hst with rfl | rfl | rfl <;> rfl

theorem afterStreamEnd_isLoading (s : ConvState) (text : List Nat) (sr : StreamRes) :
    (afterStreamEnd s text sr).isLoading = true :=
  (loopOf_state_flags s text sr).1

theorem afterFinalize_isLoading (s : ConvState) (text : List Nat) (sr : StreamRes) :
    (afterFinalize s text sr).isLoading = true :=
  (loopOf_state_flags s text sr).1

theorem afterInference_isLoading (s : ConvState) (text : List Nat) (sr : StreamRes)
    (inf : Inference) : (afterInference s text sr inf).isLoading = true :=
  (loopOf_state_flags s text sr).1

theorem appendErrMsg_isLoading (p : ConvState) (e : ErrVal) :
    (appendErrMsg p e).isLoading = p.isLoading := rfl

/-- C6 (confirmed): a `send` whose trimmed text is empty or that starts
while `isLoading` is true is a no-op (no state update, no request), and
during an accepted `send` every observable state except the final one keeps
`isLoading = true`, so any further `send` issued before completion is
dropped rather than queued. -/
theorem submit_guard_single_flight :
    (∀ (sys : List Nat) (env : Env) (s : ConvState) (text : List Nat),
       (jsTrim text = [] ∨ s.isLoading = true) → send sys env s text = ([], [])) ∧
    (∀ (sys : List Nat) (env : Env) (s : ConvState) (text : List Nat),
       ∀ st ∈ (send sys env s text).1.dropLast, st.isLoading = true) := by
  constructor
  · intro sys env s text h
    simp only [send, if_pos h]
  · intro sys env s text st hst
    by_cases hg : jsTrim text = [] ∨ s.isLoading = true
    · simp only [send, if_pos hg] at hst
      simp at hst
    · rcases send_trace_cases sys env s text hg with
        ⟨e, _, hsend⟩ | ⟨sr, e, _, _, hsend⟩ | ⟨sr, e, _, _, _, hsend⟩ |
        ⟨sr, ir, data, inf, _, _, _, _, _, _, hsend⟩ |
        ⟨sr, ir, data, _, _, _, _, _, _, hsend⟩ <;>
      rw [congrArg Prod.fst hsend] at hst
      · simp only [errTail] at hst
        have hst' : st ∈ pre3of s (jsTrim text) ++
            [appendErrMsg (afterStreamFlag s (jsTrim text)) e] := by
          simpa [List.dropLast_append_cons] using hst
        rcases List.mem_append.mp hst' with h | h
        · exact mem_pre3_loading _ _ st h
        · simp only [List.mem_singleton] at h
          subst h
          rfl
      · simp only [errTail] at hst
        have hst' : st ∈ pre3of s (jsTrim text) ++ (loopOf s (jsTrim text) sr).snaps ++
            [appendErrMsg (loopOf s (jsTrim text) sr).state e] := by
          simpa [List.dropLast_append_cons, List.append_assoc] using hst
        rcases List.mem_append.mp hst' with h | h
        · rcases List.mem_append.mp h with h2 | h2
          · exact mem_pre3_loading _ _ st h2
          · exact (loopOf_snaps_flags s (jsTrim text) sr st h2).1
        · simp only [List.mem_singleton] at h
          subst h
          rw [appendErrMsg_isLoading]
          exact (loopOf_state_flags s (jsTrim text) sr).1
      · simp only [errTail] at hst
        have hst' : st ∈ (pre3of s (jsTrim text) ++ (loopOf s (jsTrim text) sr).snaps ++
            [afterStreamEnd s (jsTrim text) sr, afterFinalize s (jsTrim text) sr]) ++
            [appendErrMsg (afterFinalize s (jsTrim text) sr) e] := by
          simpa [List.dropLast_append_cons, List.append_assoc] using hst
        rcases List.mem_append.mp hst' with h | h
        · rcases List.mem_append.mp h with h2 | h2
          · rcases List.mem_append.mp h2 with h3 | h3
            · exact mem_pre3_loading _ _ st h3
            · exact (loopOf_snaps_flags s (jsTrim text) sr st h3).1
          · simp only [List.mem_cons, List.not_mem_nil, or_false] at h2
            rcases h2 with rfl | rfl
            · exact afterStreamEnd_isLoading ..
            · exact afterFinalize_isLoading ..
        · simp only [List.mem_singleton] at h
          subst h
          rw [appendErrMsg_isLoading]
          exact afterFinalize_isLoading ..
      · have hst' : st ∈ pre3of s (jsTrim text) ++ (loopOf s (jsTrim text) sr).snaps ++
            [afterStreamEnd s (jsTrim text) sr, afterFinalize s (jsTrim text) sr,
             afterInference s (jsTrim text) sr inf] := by
          simpa [List.dropLast_append_cons, List.append_assoc] using hst
        rcases List.mem_append.mp hst' with h | h
        · rcases List.mem_append.mp h with h2 | h2
          · exact mem_pre3_loading _ _ st h2
          · exact (loopOf_snaps_flags s (jsTrim text) sr st h2).1
        · simp only [List.mem_cons, List.not_mem_nil, or_false] at h
          rcases h with rfl | rfl | rfl
          · exact afterStreamEnd_isLoading ..
          · exact afterFinalize_isLoading ..
          · exact afterInference_isLoading ..
      · have hst' : st ∈ pre3of s (jsTrim text) ++ (loopOf s (jsTrim text) sr).snaps ++
            [afterStreamEnd s (jsTrim text) sr, afterFinalize s (jsTrim text) sr] := by
          simpa [List.dropLast_append_cons, List.append_assoc] using hst
        rcases List.mem_append.mp hst' with h | h
        · rcases List.mem_append.mp h with h2 | h2
          · exact mem_pre3_loading _ _ st h2
          · exact (loopOf_snaps_flags s (jsTrim text) sr st h2).1
        · simp only [List.mem_cons, List.not_mem_nil, or_false] at h
          rcases h with rfl | rfl
          · exact afterStreamEnd_isLoading ..
          · exact afterFinalize_isLoading ..

/-! ### Concrete demonstration inputs -/

def demoState : ConvState := ⟨[], false, false, none, 0⟩

def demoInference : Inference := ⟨strCps "book", strCps "t", strCps "early"⟩

def demoInferRes : Try InferRes := .val ⟨true, 200, .val ⟨some demoInference, none⟩⟩

/-- Successful stream delivering `"✓"` split across a multi-byte boundary,
then a successful classification. -/
def demoEnvGood : Env := ⟨.val ⟨true, true, [[0xE2], [0x9C, 0x93]], none⟩, demoInferRes⟩

/-- A `read()` rejection (e.g. network drop or abort) after one chunk. -/
def demoEnvMidErr : Env := ⟨.val ⟨true, true, [[104]], some (.error [88])⟩, demoInferRes⟩

/-- Successful stream, then a non-success classification response. -/
def demoEnvInferFail : Env :=
  ⟨.val ⟨true, true, [[104]], none⟩, .val ⟨false, 500, .val ⟨none, none⟩⟩⟩

/-- Stream delivering a single chunk that is an incomplete UTF-8 sequence. -/
def demoEnvIncomplete : Env := ⟨.val ⟨true, true, [[0xE2]], none⟩, demoInferRes⟩

/-- C9 (corrected): counterexample — `clear` does not clear the
classification result: called on a state whose `inference` is set, the
result still carries that inference instead of `none`. -/
theorem clear_keeps_inference_cex :
    (clear ⟨[⟨MsgId.uuid 0, ChatRole.user, [104]⟩], false, false,
       some ⟨[109], [], []⟩, 1⟩).inference = some ⟨[109], [], []⟩ ∧
    ¬((clear ⟨[⟨MsgId.uuid 0, ChatRole.user, [104]⟩], false, false,
       some ⟨[109], [], []⟩, 1⟩).inference = none) := by
  decide

/-- C9 (amended): `clear`, callable from any state, cancels any in-flight
request (`abortRef.current?.abort()`) and empties the message list; it
leaves the classification result and the loading/streaming flags
unchanged. -/
theorem clear_spec (s : ConvState) :
    (clear s).messages = [] ∧ (clear s).inference = s.inference ∧
    (clear s).isLoading = s.isLoading ∧ (clear s).isStreaming = s.isStreaming :=
  ⟨rfl, rfl, rfl, rfl⟩

/-- C10 (confirmed): with the API key set, a request whose body has a truthy
`inferOnly` returns a 200 JSON response `{ inference }` built by the total
function `extractInference` — regardless of the `stream` flag, of whether
`messages` is present, and of any upstream failure or non-JSON model
output; no byte stream is returned. -/
theorem post_infer_only (env : ServerEnv) (body : ServerReqBody) (k : List Nat)
    (hk : env.apiKey = some k) (hio : body.inferOnly = true) :
    POST env body =
      ApiResponse.json 200 ⟨none, some (extractInference env
        (body.messages.getD []) (body.lastAnswer.getD [])), none, none⟩ := by
  simp only [POST, hk, hio, if_true]

def demoSrvEnv : ServerEnv := ⟨some [107], .fail, .fail, .fail, .fail, fun _ => none⟩

def demoSrvBody : ServerReqBody := ⟨none, true, true, none⟩

/-- Witness for C10 at a concrete request: `stream` also truthy, `messages`
absent, the classifier's upstream call failing — the response is still the
200 JSON with the unknown inference. -/
theorem post_infer_only_witness :
    demoSrvEnv.apiKey = some [107] ∧ demoSrvBody.inferOnly = true ∧
    POST demoSrvEnv demoSrvBody =
      ApiResponse.json 200 ⟨none, some unknownInference, none, none⟩ := by
  refine ⟨rfl, rfl, ?_⟩
  have h := post_infer_only demoSrvEnv demoSrvBody [107] rfl rfl
  rw [h]
  rfl

/-- C8 (corrected): counterexample — the primary (streaming) request's
`messages` array does **not** exclude the policy/system instructions: its
first element is the client's system message itself. -/
theorem request_messages_include_system_cex :
    ((send [83] demoEnvGood demoState [104]).2.head?).map
      (fun r => (r.stream, r.inferOnly, r.messages.head?)) =
      some (true, false, some ⟨ChatRole.system, [83]⟩) := by
  decide

/-- C8 (amended): every request body `send` issues (primary and
classification alike) carries the client's policy/system message as the
first element of `messages`; the endpoint additionally injects its own
instructions ahead of them server-side. -/
theorem send_requests_system_first (sys : List Nat) (env : Env) (s : ConvState)
    (text : List Nat) :
    ∀ req ∈ (send sys env s text).2,
      req.messages.head? = some ⟨ChatRole.system, sys⟩ := by
  intro req hreq
  by_cases hg : jsTrim text = [] ∨ s.isLoading = true
  · simp only [send, if_pos hg] at hreq
    simp at hreq
  · rcases send_trace_cases sys env s text hg with
      ⟨e, _, hsend⟩ | ⟨sr, e, _, _, hsend⟩ | ⟨sr, e, _, _, _, hsend⟩ |
      ⟨sr, ir, data, inf, _, _, _, _, _, _, hsend⟩ |
      ⟨sr, ir, data, _, _, _, _, _, _, hsend⟩ <;>
    rw [congrArg Prod.snd hsend] at hreq <;>
    simp only [List.mem_cons, List.mem_singleton, List.not_mem_nil, or_false] at hreq
    · subst hreq; rfl
    · subst hreq; rfl
    · rcases hreq with rfl | rfl <;> rfl
    · rcases hreq with rfl | rfl <;> rfl
    · rcases hreq with rfl | rfl <;> rfl

/-- Witness for C8's amended claim at a concrete submission. -/
theorem send_requests_system_first_witness :
    (streamReqOf [83] demoState [104]).messages.head? =
      some ⟨ChatRole.system, [83]⟩ :=
  send_requests_system_first [83] demoEnvGood demoState [104] _ (by decide)

/-- Witness for C6 at concrete inputs: a call with `isLoading = true` is a
no-op, and the first observable state of an accepted call keeps
`isLoading = true`. -/
theorem submit_guard_single_flight_witness :
    send [83] demoEnvGood ⟨[], true, false, none, 0⟩ [104] = ([], []) ∧
    (afterLoading demoState).isLoading = true :=
  ⟨submit_guard_single_flight.1 [83] demoEnvGood ⟨[], true, false, none, 0⟩ [104]
     (Or.inr rfl),
   submit_guard_single_flight.2 [83] demoEnvGood demoState [104]
     (afterLoading demoState) (by decide)⟩

/-! ### Message-list characterization of the success path -/

theorem afterStreamFlag_messages (s : ConvState) (text : List Nat) :
    (afterStreamFlag s text).messages =
      s.messages ++ [⟨MsgId.uuid s.nextId, ChatRole.user, text⟩] := rfl

theorem noPh_user_append (s : ConvState) (text : List Nat) (h : noPh s.messages) :
    noPh ((afterStreamFlag s text).messages) := by
  rw [afterStreamFlag_messages]
  refine noPh_append _ _ h ?_
  intro m hm
  simp only [List.mem_singleton] at hm
  subst hm
  simp

theorem loopOf_msgs (s : ConvState) (text : List Nat) (sr : StreamRes)
    (h : noPh s.messages) :
    (loopOf s text sr).state.messages = (afterStreamFlag s text).messages ∨
    ∃ t, (loopOf s text sr).state.messages =
      (afterStreamFlag s text).messages ++
        [⟨MsgId.stream, ChatRole.assistant, t⟩] := by
  unfold loopOf
  split_ifs with hok
  · have hb : noPh (afterStreamFlag s text).messages := noPh_user_append s text h
    have hm := streamLoop_msgs sr.chunks (afterStreamFlag s text) [] DecState.start
      (afterStreamFlag s text).messages [] hb (Or.inl rfl) (by simp)
    rcases Decidable.em (sr.chunks = []) with hc | hc
    · exact Or.inl (hm.1 hc)
    · exact Or.inr ⟨_, hm.2.1 hc⟩
  · exact Or.inl rfl

theorem finalizeMsgs_drop (base rest : List ChatMessage) (acc : List Nat) (nid : Nat)
    (hb : noPh base)
    (hr : rest = [] ∨ ∃ t, rest = [⟨MsgId.stream, ChatRole.assistant, t⟩]) :
    finalizeMsgs (base ++ rest) acc nid =
      base ++ (if acc = [] then []
        else [⟨MsgId.uuid nid, ChatRole.assistant, acc⟩]) := by
  unfold finalizeMsgs
  have hfil : (base ++ rest).filter (fun m => decide (¬(m.id = MsgId.stream))) = base := by
    rw [List.filter_append, filter_eq_self_of_noPh base hb]
    rcases hr with rfl | ⟨t, rfl⟩ <;> simp
  rw [hfil]
  split_ifs <;> simp

theorem afterFinalize_messages (s : ConvState) (text : List Nat) (sr : StreamRes)
    (h : noPh s.messages) :
    (afterFinalize s text sr).messages =
      s.messages ++ [⟨MsgId.uuid s.nextId, ChatRole.user, text⟩] ++
      (if (loopOf s text sr).acc = [] then []
       else [⟨MsgId.uuid (s.nextId + 1), ChatRole.assistant,
         (loopOf s text sr).acc⟩]) := by
  have hnid : (loopOf s text sr).state.nextId = s.nextId + 1 :=
    (loopOf_state_flags s text sr).2.2.2
  have hb : noPh (s.messages ++ [⟨MsgId.uuid s.nextId, ChatRole.user, text⟩]) := by
    rw [← afterStreamFlag_messages]
    exact noPh_user_append s text h
  show finalizeMsgs (loopOf s text sr).state.messages (loopOf s text sr).acc
      (loopOf s text sr).state.nextId = _
  rw [hnid]
  rcases loopOf_msgs s text sr h with hm | ⟨t, hm⟩
  · rw [hm, afterStreamFlag_messages]
    have hd := finalizeMsgs_drop
      (s.messages ++ [⟨MsgId.uuid s.nextId, ChatRole.user, text⟩]) []
      (loopOf s text sr).acc (s.nextId + 1) hb (Or.inl rfl)
    rw [List.append_nil] at hd
    exact hd
  · rw [hm, afterStreamFlag_messages]
    exact finalizeMsgs_drop _ _ _ _ hb (Or.inr ⟨t, rfl⟩)

theorem afterFinalize_noPh (s : ConvState) (text : List Nat) (sr : StreamRes) :
    noPh (afterFinalize s text sr).messages := by
  show noPh (finalizeMsgs (afterStreamEnd s text sr).messages
    (loopOf s text sr).acc (afterStreamEnd s text sr).nextId)
  unfold finalizeMsgs
  split_ifs
  · exact noPh_filter _
  · refine noPh_append _ _ (noPh_filter _) ?_
    intro m hm
    simp only [List.mem_singleton] at hm
    subst hm
    simp

/-- C5 (confirmed): when the stream ends without a throw during the stream
phase, the stream-end update removes the placeholder (the resulting message
list contains no entry with the reserved id); if the accumulated decoded
text is non-empty, exactly one new assistant message with that text and a
freshly generated identifier (a uuid, never `"__stream"`) is appended; if
it is empty, no assistant message is appended; and the final observable
state of the call clears `isLoading`. -/
theorem stream_end_finalization (sys : List Nat) (env : Env) (s : ConvState)
    (text : List Nat) (sr : StreamRes)
    (hg : ¬(jsTrim text = [] ∨ s.isLoading = true))
    (henv : env.streamRes = .val sr) (hmid : effMidErr sr = none)
    (hnoPh : noPh s.messages) :
    afterFinalize s (jsTrim text) sr ∈ (send sys env s text).1 ∧
    (afterFinalize s (jsTrim text) sr).messages =
      s.messages ++ [⟨MsgId.uuid s.nextId, ChatRole.user, jsTrim text⟩] ++
      (if (loopOf s (jsTrim text) sr).acc = [] then []
       else [⟨MsgId.uuid (s.nextId + 1), ChatRole.assistant,
         (loopOf s (jsTrim text) sr).acc⟩]) ∧
    noPh (afterFinalize s (jsTrim text) sr).messages ∧
    (afterFinalize s (jsTrim text) sr).isStreaming = false ∧
    ∃ q, (send sys env s text).1.getLast? = some q ∧ q.isLoading = false := by
  have h2 := afterFinalize_messages s (jsTrim text) sr hnoPh
  have h3 := afterFinalize_noPh s (jsTrim text) sr
  rcases send_trace_cases sys env s text hg with
      ⟨e, he, hsend⟩ | ⟨sr', e, he, hm, hsend⟩ | ⟨sr', e, he, hm, hc, hsend⟩ |
      ⟨sr', ir, data, inf, he, hm, hi, hj, hok, hd, hsend⟩ |
      ⟨sr', ir, data, he, hm, hi, hj, hok, hd, hsend⟩
  · rw [henv] at he
    cases he
  · rw [henv] at he
    injection he with hsr
    subst hsr
    rw [hmid] at hm
    cases hm
  · rw [henv] at he
    injection he with hsr
    subst hsr
    refine ⟨?_, h2, h3, rfl, ?_⟩
    · rw [congrArg Prod.fst hsend]
      simp [errTail]
    · have hlast : (send sys env s text).1.getLast? =
          some (clearLoading (appendErrMsg (afterFinalize s (jsTrim text) sr) e)) := by
        rw [congrArg Prod.fst hsend]
        simp [errTail]
      exact ⟨_, hlast, rfl⟩
  · rw [henv] at he
    injection he with hsr
    subst hsr
    refine ⟨?_, h2, h3, rfl, ?_⟩
    · rw [congrArg Prod.fst hsend]
      simp
    · have hlast : (send sys env s text).1.getLast? =
          some (clearLoading (afterInference s (jsTrim text) sr inf)) := by
        rw [congrArg Prod.fst hsend]
        simp
      exact ⟨_, hlast, rfl⟩
  · rw [henv] at he
    injection he with hsr
    subst hsr
    refine ⟨?_, h2, h3, rfl, ?_⟩
    · rw [congrArg Prod.fst hsend]
      simp
    · have hlast : (send sys env s text).1.getLast? =
          some (clearLoading (afterFinalize s (jsTrim text) sr)) := by
        rw [congrArg Prod.fst hsend]
        simp
      exact ⟨_, hlast, rfl⟩

/-- Witness for C5 at a concrete successful stream (and, separately
instantiable, at an empty stream): the finalize state appends exactly the
decoded text with a fresh id and the last state clears `isLoading`. -/
theorem stream_end_finalization_witness :
    afterFinalize demoState (jsTrim [104]) ⟨true, true, [[0xE2], [0x9C, 0x93]], none⟩ ∈
      (send [83] demoEnvGood demoState [104]).1 ∧
    (afterFinalize demoState (jsTrim [104])
      ⟨true, true, [[0xE2], [0x9C, 0x93]], none⟩).messages =
      [⟨MsgId.uuid 0, ChatRole.user, [104]⟩,
       ⟨MsgId.uuid 1, ChatRole.assistant, [0x2713]⟩] := by
  have h := stream_end_finalization [83] demoEnvGood demoState [104]
    ⟨true, true, [[0xE2], [0x9C, 0x93]], none⟩ (by decide) rfl (by decide) (by decide)
  refine ⟨h.1, ?_⟩
  rw [h.2.1]
  decide

theorem loopOf_acc_ok (s : ConvState) (text : List Nat) (sr : StreamRes)
    (h : sr.ok = true ∧ sr.hasBody = true) :
    (loopOf s text sr).acc = (feedBytes DecState.start sr.chunks.flatten).2 := by
  unfold loopOf
  rw [if_pos h]
  have := (streamLoop_acc sr.chunks (afterStreamFlag s text) [] DecState.start).1
  simpa using this

/-- C3 (corrected): counterexample — the decoder state is never flushed at
end-of-stream.  For the single chunk `[0xE2]` (an incomplete UTF-8
sequence) the UTF-8 decoding of the concatenation is the replacement
character `[0xFFFD]`, but the code accumulates the empty string and the
finalized state carries **no** assistant message at all, so no message
content equals the decoding. -/
theorem decoder_no_flush_cex :
    utf8DecodeFull [0xE2] = [0xFFFD] ∧
    ((send [83] demoEnvIncomplete demoState [104]).1.getLast?).map
      (fun q => q.messages) =
      some [⟨MsgId.uuid 0, ChatRole.user, [104]⟩] := by
  decide

/-- C3 (amended): for every finite sequence of byte chunks whose
concatenation is a *complete* (well-formed) UTF-8 encoding of a scalar
sequence `cps`, the accumulated text equals `cps` — the UTF-8 decoding of
the concatenation — independent of where the chunk boundaries fall
(including a boundary splitting a multi-byte character), with decoder state
persisting across chunks; and the finalized assistant message carries
exactly that text.  (There is no end-of-stream flush, so a trailing
incomplete sequence would be dropped, as the counterexample shows.) -/
theorem streaming_convergence_amended (sys : List Nat) (s : ConvState)
    (text : List Nat) (chunks : List (List Nat)) (cps : List Nat)
    (ires : Try InferRes)
    (hg : ¬(jsTrim text = [] ∨ s.isLoading = true)) (hnoPh : noPh s.messages)
    (hvalid : ∀ c ∈ cps, ValidCp c)
    (hflat : chunks.flatten = utf8EncodeList cps) :
    (loopOf s (jsTrim text) ⟨true, true, chunks, none⟩).acc = cps ∧
    utf8DecodeFull chunks.flatten = cps ∧
    afterFinalize s (jsTrim text) ⟨true, true, chunks, none⟩ ∈
      (send sys ⟨.val ⟨true, true, chunks, none⟩, ires⟩ s text).1 ∧
    (cps ≠ [] →
      (afterFinalize s (jsTrim text) ⟨true, true, chunks, none⟩).messages =
        s.messages ++ [⟨MsgId.uuid s.nextId, ChatRole.user, jsTrim text⟩,
          ⟨MsgId.uuid (s.nextId + 1), ChatRole.assistant, cps⟩]) := by
  have hacc : (loopOf s (jsTrim text) ⟨true, true, chunks, none⟩).acc = cps := by
    rw [loopOf_acc_ok _ _ _ ⟨rfl, rfl⟩]
    show (feedBytes DecState.start chunks.flatten).2 = cps
    rw [hflat, feedBytes_encodeList cps hvalid]
  have hdec : utf8DecodeFull chunks.flatten = cps := by
    rw [hflat]
    exact utf8DecodeFull_encodeList cps hvalid
  obtain ⟨hmem, hmsgs, _, _, _⟩ := stream_end_finalization sys
    ⟨.val ⟨true, true, chunks, none⟩, ires⟩ s text ⟨true, true, chunks, none⟩
    hg rfl rfl hnoPh
  refine ⟨hacc, hdec, hmem, ?_⟩
  intro hne
  rw [hmsgs, hacc, if_neg hne]
  simp

/-- Witness for C3's amended claim: the check mark `"✓"` (U+2713) split as
`[0xE2] · [0x9C, 0x93]` across a chunk boundary decodes to exactly
`[0x2713]`. -/
theorem streaming_convergence_amended_witness :
    (loopOf demoState (jsTrim [104])
      ⟨true, true, [[0xE2], [0x9C, 0x93]], none⟩).acc = [0x2713] ∧
    utf8DecodeFull ([[0xE2], [0x9C, 0x93]] : List (List Nat)).flatten =
      [0x2713] := by
  have h := streaming_convergence_amended [83] demoState [104]
    [[0xE2], [0x9C, 0x93]] [0x2713] demoInferRes (by decide) (by decide)
    (by decide) (by decide)
  exact ⟨h.1, h.2.1⟩

theorem getLast?_cons_of_ne_nil {α : Type} (x : α) (l : List α) (h : l ≠ []) :
    (x :: l).getLast? = l.getLast? := by
  cases l with
  | nil => exact absurd rfl h
  | cons y ys => simp [List.getLast?_cons_cons]

theorem streamLoop_last (cs : List (List Nat)) : ∀ s acc ds, cs ≠ [] →
    (streamLoop s acc ds cs).snaps.getLast? =
      some (streamLoop s acc ds cs).state := by
  induction cs with
  | nil => intro s acc ds h; exact absurd rfl h
  | cons c cs ih =>
      intro s acc ds _
      rcases Decidable.em (cs = []) with hc | hc
      · subst hc
        rfl
      · simp only [streamLoop]
        rw [getLast?_cons_of_ne_nil]
      
        · exact ih _ _ _ hc
        · intro hnil
          have hl := ih { s with
            messages := streamUpd s.messages (acc ++ (feedBytes ds c).2) }
            (acc ++ (feedBytes ds c).2) (feedBytes ds c).1 hc
          rw [hnil] at hl
          simp at hl

theorem loopOf_snaps_nil (s : ConvState) (text : List Nat) (sr : StreamRes)
    (h : (loopOf s text sr).snaps = []) :
    (loopOf s text sr).state = afterStreamFlag s text := by
  unfold loopOf at h ⊢
  split_ifs at h ⊢ with hok
  · cases hch : sr.chunks with
    | nil => rfl
    | cons c l =>
        rw [hch] at h
        simp [streamLoop] at h
  · rfl

theorem loopOf_last (s : ConvState) (text : List Nat) (sr : StreamRes)
    (h : ¬((loopOf s text sr).snaps = [])) :
    (loopOf s text sr).snaps.getLast? = some (loopOf s text sr).state := by
  unfold loopOf at h ⊢
  split_ifs at h ⊢ with hok
  · cases hch : sr.chunks with
    | nil =>
        rw [hch] at h
        simp [streamLoop] at h
    | cons c l => exact streamLoop_last (c :: l) _ [] DecState.start (by simp)
  · exact absurd rfl h

/-- C1 (corrected): counterexample — on a mid-stream transport failure the
final state still contains the in-progress placeholder (id `"__stream"`),
and `isStreaming` is **not** cleared: the claim's "removes the placeholder"
and "clears … isStreaming" both fail.  (The error message is appended after
the stale placeholder and `isLoading` does clear.) -/
theorem error_path_keeps_placeholder_cex :
    ((send [83] demoEnvMidErr demoState [104]).1.getLast?).map
      (fun q => (q.isStreaming, q.isLoading,
        q.messages.map (fun m => (m.id, m.content)))) =
      some (true, false,
        [(MsgId.uuid 0, [104]),
         (MsgId.stream, [104, 0x258D]),
         (MsgId.uuid 1, [88])]) := by
  decide

/-- C1 (amended): for every submission whose transport call raises an
error at any stage (a thrown network error, a mid-stream read rejection, a
classification-request failure, or a non-success classification response
converted to a throw), exactly one assistant-role message is appended
after the last previously observable state, its content being the
propagated error message when non-empty (`"Unknown error"` for non-Error
throws, the generic Spanish fallback for an empty message), and `isLoading`
is cleared; the placeholder, if present, is not removed, and `isStreaming`
is not cleared on error paths reached during streaming.  (A non-success
*streaming* response by itself throws nothing and appends no message.) -/
theorem send_throw_error_path (sys : List Nat) (env : Env) (s : ConvState)
    (text : List Nat) (e : ErrVal)
    (hg : ¬(jsTrim text = [] ∨ s.isLoading = true))
    (hthrow : thrownError env = some e) :
    ∃ pre p, (send sys env s text).1 =
        pre ++ [appendErrMsg p e, clearLoading (appendErrMsg p e)] ∧
      pre.getLast? = some p ∧
      (appendErrMsg p e).messages =
        p.messages ++ [⟨MsgId.uuid p.nextId, ChatRole.assistant, errContent e⟩] ∧
      (clearLoading (appendErrMsg p e)).isLoading = false := by
  rcases send_trace_cases sys env s text hg with
      ⟨e', he, hsend⟩ | ⟨sr, e', he, hm, hsend⟩ | ⟨sr, e', he, hm, hc, hsend⟩ |
      ⟨sr, ir, data, inf, he, hm, hi, hj, hok, hd, hsend⟩ |
      ⟨sr, ir, data, he, hm, hi, hj, hok, hd, hsend⟩
  · simp only [thrownError, he] at hthrow
    injection hthrow with he'
    subst he'
    exact ⟨pre3of s (jsTrim text), afterStreamFlag s (jsTrim text),
      congrArg Prod.fst hsend, rfl, rfl, rfl⟩
  · simp only [thrownError, he, hm] at hthrow
    injection hthrow with he'
    subst he'
    refine ⟨pre3of s (jsTrim text) ++ (loopOf s (jsTrim text) sr).snaps,
      (loopOf s (jsTrim text) sr).state, congrArg Prod.fst hsend, ?_, rfl, rfl⟩
    rcases Decidable.em ((loopOf s (jsTrim text) sr).snaps = []) with hsn | hsn
    · rw [hsn, loopOf_snaps_nil s (jsTrim text) sr hsn]
      simp [pre3of]
    · rw [List.getLast?_append_of_ne_nil _ hsn]
      exact loopOf_last s (jsTrim text) sr hsn
  · simp only [thrownError, he, hm] at hthrow
    rw [hc] at hthrow
    injection hthrow with he'
    subst he'
    refine ⟨pre3of s (jsTrim text) ++ (loopOf s (jsTrim text) sr).snaps ++
      [afterStreamEnd s (jsTrim text) sr, afterFinalize s (jsTrim text) sr],
      afterFinalize s (jsTrim text) sr, congrArg Prod.fst hsend, ?_, rfl, rfl⟩
    simp
  · simp only [thrownError, he, hm, classifyThrow, hi, hj, if_pos hok] at hthrow
    exact Option.noConfusion hthrow
  · simp only [thrownError, he, hm, classifyThrow, hi, hj, if_pos hok] at hthrow
    exact Option.noConfusion hthrow

/-- Witness for C1's amended claim at a concrete mid-stream failure. -/
theorem send_throw_error_path_witness :
    ∃ pre p, (send [83] demoEnvMidErr demoState [104]).1 =
        pre ++ [appendErrMsg p (.error [88]),
          clearLoading (appendErrMsg p (.error [88]))] ∧
      pre.getLast? = some p ∧
      (appendErrMsg p (.error [88])).messages =
        p.messages ++
          [⟨MsgId.uuid p.nextId, ChatRole.assistant, errContent (.error [88])⟩] ∧
      (clearLoading (appendErrMsg p (.error [88]))).isLoading = false :=
  send_throw_error_path [83] demoEnvMidErr demoState [104] (.error [88])
    (by decide) (by decide)

theorem loopOf_msgs_of_chunks (s : ConvState) (text : List Nat) (sr : StreamRes)
    (h : noPh s.messages) (hok : sr.ok = true ∧ sr.hasBody = true)
    (hch : ¬(sr.chunks = [])) :
    ∃ t, (loopOf s text sr).state.messages =
      (afterStreamFlag s text).messages ++
        [⟨MsgId.stream, ChatRole.assistant, t⟩] := by
  unfold loopOf
  rw [if_pos hok]
  have hb := noPh_user_append s text h
  have hmm := streamLoop_msgs sr.chunks (afterStreamFlag s text) [] DecState.start
    (afterStreamFlag s text).messages [] hb (Or.inl rfl) (by simp)
  exact ⟨_, hmm.2.1 hch⟩

/-- The rejection message a cancelled `fetch`/`read` produces
(`DOMException: The user aborted a request`, an `Error` instance). -/
def abortMsgText : List Nat := strCps "The user aborted a request"

/-- Abort of the demo stream after its first chunk. -/
def demoAbortEnv : Env :=
  ⟨.val ⟨true, true, [[104]], some (.error abortMsgText)⟩, demoInferRes⟩

/-- C4 (corrected): counterexample — a cancellation is **not** silently
discarded: the abort rejection reaches the generic `catch`, which appends a
user-visible assistant message carrying the abort error's message, and the
placeholder is left in the list rather than removed cleanly. -/
theorem abort_appends_message_cex :
    ((send [83] demoAbortEnv demoState [104]).1.getLast?).map
      (fun q => q.messages.map (fun mm => (mm.id, mm.role, mm.content))) =
      some [(MsgId.uuid 0, ChatRole.user, [104]),
            (MsgId.stream, ChatRole.assistant, [104, 0x258D]),
            (MsgId.uuid 1, ChatRole.assistant, abortMsgText)] := by
  decide

/-- C4 (amended): when an in-flight request is cancelled mid-stream (the
abort signal makes the pending `read()` reject with an `Error` carrying a
non-empty message), the cancellation is handled by the generic error path:
a user-visible assistant message with the abort error's message is
appended, the placeholder is **not** removed (it stays in the list before
the appended message), `isLoading` clears and `isStreaming` stays true. -/
theorem cancellation_error_path (sys : List Nat) (s : ConvState)
    (text : List Nat) (chunks : List (List Nat)) (m : List Nat)
    (ires : Try InferRes)
    (hg : ¬(jsTrim text = [] ∨ s.isLoading = true)) (hm : ¬(m = []))
    (hch : ¬(chunks = [])) (hnoPh : noPh s.messages) :
    ∃ q, (send sys ⟨.val ⟨true, true, chunks, some (.error m)⟩, ires⟩
        s text).1.getLast? = some q ∧
      q.messages.getLast? =
        some ⟨MsgId.uuid (s.nextId + 1), ChatRole.assistant, m⟩ ∧
      (∃ mm ∈ q.messages, mm.id = MsgId.stream) ∧
      q.isLoading = false ∧ q.isStreaming = true := by
  rcases send_trace_cases sys ⟨.val ⟨true, true, chunks, some (.error m)⟩, ires⟩
      s text hg with
      ⟨e, he, hsend⟩ | ⟨sr, e, he, hmid, hsend⟩ | ⟨sr, e, he, hmid, hc, hsend⟩ |
      ⟨sr, ir, data, inf, he, hmid, hi, hj, hok, hd, hsend⟩ |
      ⟨sr, ir, data, he, hmid, hi, hj, hok, hd, hsend⟩
  · exact absurd he (by simp)
  · have hsr : sr = ⟨true, true, chunks, some (.error m)⟩ := by
      have h2 := he.symm
      injection h2
    subst hsr
    have he' : e = .error m := by
      simp [effMidErr] at hmid
      exact hmid.symm
    subst he'
    have hnid := (loopOf_state_flags s (jsTrim text)
      ⟨true, true, chunks, some (.error m)⟩).2.2.2
    have hstr := (loopOf_state_flags s (jsTrim text)
      ⟨true, true, chunks, some (.error m)⟩).2.1
    have hec : errContent (.error m) = m := by simp [errContent, hm]
    refine ⟨clearLoading (appendErrMsg
      (loopOf s (jsTrim text) ⟨true, true, chunks, some (.error m)⟩).state
      (.error m)), ?_, ?_, ?_, rfl, ?_⟩
    · rw [congrArg Prod.fst hsend]
      simp [errTail]
    · simp [clearLoading, appendErrMsg, hnid, hec]
    · obtain ⟨t, hms⟩ := loopOf_msgs_of_chunks s (jsTrim text)
        ⟨true, true, chunks, some (.error m)⟩ hnoPh ⟨rfl, rfl⟩ hch
      refine ⟨⟨MsgId.stream, ChatRole.assistant, t⟩, ?_, rfl⟩
      show _ ∈ (appendErrMsg _ _).messages
      simp only [appendErrMsg]
      rw [hms]
      simp
    · exact hstr
  · have hsr : sr = ⟨true, true, chunks, some (.error m)⟩ := by
      have h2 := he.symm
      injection h2
    subst hsr
    simp [effMidErr] at hmid
  · have hsr : sr = ⟨true, true, chunks, some (.error m)⟩ := by
      have h2 := he.symm
      injection h2
    subst hsr
    simp [effMidErr] at hmid
  · have hsr : sr = ⟨true, true, chunks, some (.error m)⟩ := by
      have h2 := he.symm
      injection h2
    subst hsr
    simp [effMidErr] at hmid

/-- Witness for C4's amended claim at the concrete aborted stream. -/
theorem cancellation_error_path_witness :
    ∃ q, (send [83] ⟨.val ⟨true, true, [[104]], some (.error abortMsgText)⟩,
        demoInferRes⟩ demoState [104]).1.getLast? = some q ∧
      q.messages.getLast? =
        some ⟨MsgId.uuid 1, ChatRole.assistant, abortMsgText⟩ ∧
      (∃ mm ∈ q.messages, mm.id = MsgId.stream) ∧
      q.isLoading = false ∧ q.isStreaming = true :=
  cancellation_error_path [83] demoState [104] [[104]] abortMsgText demoInferRes
    (by decide) (by decide) (by decide) (by decide)

theorem loopOf_WF (s : ConvState) (text : List Nat) (sr : StreamRes)
    (h : WFMsgs (afterStreamFlag s text).messages) :
    WFMsgs (loopOf s text sr).state.messages ∧
    ∀ st ∈ (loopOf s text sr).snaps, WFMsgs st.messages := by
  unfold loopOf
  split_ifs with hok
  · exact streamLoop_WF sr.chunks _ [] DecState.start h
  · refine ⟨h, ?_⟩
    intro st hst
    simp at hst

theorem loopOf_snaps_shape (s : ConvState) (text : List Nat) (sr : StreamRes)
    (h : noPh s.messages) :
    ∀ st ∈ (loopOf s text sr).snaps,
      ∃ t, st.messages = (afterStreamFlag s text).messages ++
        [⟨MsgId.stream, ChatRole.assistant, t⟩] := by
  unfold loopOf
  split_ifs with hok
  · intro st hst
    have hb := noPh_user_append s text h
    have hmm := streamLoop_msgs sr.chunks (afterStreamFlag s text) [] DecState.start
      (afterStreamFlag s text).messages [] hb (Or.inl rfl) (by simp)
    exact hmm.2.2 st hst
  · intro st hst
    simp at hst

/-- C2 (corrected): counterexample — after a mid-stream transport failure
the error-path update appends the error message *after* the stale
placeholder, so the trace contains an observable state in which the
placeholder is present but not the last element. -/
theorem placeholder_not_last_cex :
    (((send [83] demoEnvMidErr demoState [104]).1[4]?).map
      (fun q => (decide (phOk q.messages), q.messages.map (fun m => m.id)))) =
      some (false, [MsgId.uuid 0, MsgId.stream, MsgId.uuid 1]) := by
  decide

/-- C2 (amended): in every state observable after each update performed by
`send` (error paths included) the message list contains at most one
placeholder, any placeholder being assistant-role, provided the entry state
satisfies the same well-formedness; and on submissions with no transport
failure at any stage, starting from a placeholder-free entry state, the
placeholder is additionally always the last element when present.  (After a
failure the error message may sit after a stale placeholder, as the
counterexample shows.) -/
theorem placeholder_invariant_amended :
    (∀ (sys : List Nat) (env : Env) (s : ConvState) (text : List Nat),
       WFMsgs s.messages →
       ∀ st ∈ (send sys env s text).1, WFMsgs st.messages) ∧
    (∀ (sys : List Nat) (env : Env) (s : ConvState) (text : List Nat)
       (sr : StreamRes) (ir : InferRes) (data : InferData),
       env.streamRes = .val sr → effMidErr sr = none →
       env.inferRes = .val ir → ir.json = .val data → ir.ok = true →
       noPh s.messages →
       ∀ st ∈ (send sys env s text).1, phOk st.messages) := by
  constructor
  · intro sys env s text hWF st hst
    by_cases hg : jsTrim text = [] ∨ s.isLoading = true
    · simp only [send, if_pos hg] at hst
      simp at hst
    · have hWFu : WFMsgs (afterStreamFlag s (jsTrim text)).messages := by
        rw [afterStreamFlag_messages]
        exact WFMsgs_append_uuid _ _ _ _ hWF
      rcases send_trace_cases sys env s text hg with
          ⟨e, _, hsend⟩ | ⟨sr, e, _, _, hsend⟩ | ⟨sr, e, _, _, _, hsend⟩ |
          ⟨sr, ir, data, inf, _, _, _, _, _, _, hsend⟩ |
          ⟨sr, ir, data, _, _, _, _, _, _, hsend⟩ <;>
        rw [congrArg Prod.fst hsend] at hst <;>
        simp only [pre3of, errTail, List.mem_append, List.mem_cons,
          List.not_mem_nil, or_false] at hst
      · rcases hst with (rfl | rfl | rfl) | rfl | rfl
        · exact hWF
        · exact hWFu
        · exact hWFu
        · exact WFMsgs_append_uuid _ _ _ _ hWFu
        · exact WFMsgs_append_uuid _ _ _ _ hWFu
      · have hloop := loopOf_WF s (jsTrim text) sr hWFu
        rcases hst with ((rfl | rfl | rfl) | hsn) | rfl | rfl
        · exact hWF
        · exact hWFu
        · exact hWFu
        · exact hloop.2 st hsn
        · exact WFMsgs_append_uuid _ _ _ _ hloop.1
        · exact WFMsgs_append_uuid _ _ _ _ hloop.1
      · have hloop := loopOf_WF s (jsTrim text) sr hWFu
        have hfin : WFMsgs (afterFinalize s (jsTrim text) sr).messages :=
          WFMsgs_of_noPh _ (afterFinalize_noPh s (jsTrim text) sr)
        rcases hst with (((rfl | rfl | rfl) | hsn) | rfl | rfl) | rfl | rfl
        · exact hWF
        · exact hWFu
        · exact hWFu
        · exact hloop.2 st hsn
        · exact hloop.1
        · exact hfin
        · exact WFMsgs_append_uuid _ _ _ _ hfin
        · exact WFMsgs_append_uuid _ _ _ _ hfin
      · have hloop := loopOf_WF s (jsTrim text) sr hWFu
        have hfin : WFMsgs (afterFinalize s (jsTrim text) sr).messages :=
          WFMsgs_of_noPh _ (afterFinalize_noPh s (jsTrim text) sr)
        rcases hst with ((rfl | rfl | rfl) | hsn) | rfl | rfl | rfl | rfl
        · exact hWF
        · exact hWFu
        · exact hWFu
        · exact hloop.2 st hsn
        · exact hloop.1
        · exact hfin
        · exact hfin
        · exact hfin
      · have hloop := loopOf_WF s (jsTrim text) sr hWFu
        have hfin : WFMsgs (afterFinalize s (jsTrim text) sr).messages :=
          WFMsgs_of_noPh _ (afterFinalize_noPh s (jsTrim text) sr)
        rcases hst with ((rfl | rfl | rfl) | hsn) | rfl | rfl | rfl
        · exact hWF
        · exact hWFu
        · exact hWFu
        · exact hloop.2 st hsn
        · exact hloop.1
        · exact hfin
        · exact hfin
  · intro sys env s text sr ir data henv hmid hi hj hok hnoPh st hst
    by_cases hg : jsTrim text = [] ∨ s.isLoading = true
    · simp only [send, if_pos hg] at hst
      simp at hst
    · have hnoPhu : noPh (afterStreamFlag s (jsTrim text)).messages :=
        noPh_user_append s (jsTrim text) hnoPh
      have hOkU : phOk (afterStreamFlag s (jsTrim text)).messages :=
        phOk_of_noPh _ hnoPhu
      have hOk0 : phOk s.messages := phOk_of_noPh _ hnoPh
      rcases send_trace_cases sys env s text hg with
          ⟨e, he, hsend⟩ | ⟨sr', e, he, hm, hsend⟩ | ⟨sr', e, he, hm, hc, hsend⟩ |
          ⟨sr', ir', data', inf, he, hm, hi', hj', hok', hd, hsend⟩ |
          ⟨sr', ir', data', he, hm, hi', hj', hok', hd, hsend⟩
      · rw [henv] at he
        cases he
      · rw [henv] at he
        injection he with hsr
        subst hsr
        rw [hmid] at hm
        cases hm
      · rw [henv] at he
        injection he with hsr
        subst hsr
        rw [hi] at hc
        simp only [classifyThrow, hj, if_pos hok] at hc
        exact Option.noConfusion hc
      · rw [henv] at he
        injection he with hsr
        subst hsr
        rw [congrArg Prod.fst hsend] at hst
        simp only [pre3of, List.mem_append, List.mem_cons,
          List.not_mem_nil, or_false] at hst
        have hfin : phOk (afterFinalize s (jsTrim text) sr).messages :=
          phOk_of_noPh _ (afterFinalize_noPh s (jsTrim text) sr)
        rcases hst with ((rfl | rfl | rfl) | hsn) | rfl | rfl | rfl | rfl
        · exact hOk0
        · exact hOkU
        · exact hOkU
        · obtain ⟨t, hms⟩ := loopOf_snaps_shape s (jsTrim text) sr hnoPh st hsn
          rw [hms]
          exact phOk_base_ph _ _ hnoPhu
        · show phOk (loopOf s (jsTrim text) sr).state.messages
          rcases loopOf_msgs s (jsTrim text) sr hnoPh with hms | ⟨t, hms⟩
          · rw [hms]
            exact hOkU
          · rw [hms]
            exact phOk_base_ph _ _ hnoPhu
        · exact hfin
        · exact hfin
        · exact hfin
      · rw [henv] at he
        injection he with hsr
        subst hsr
        rw [congrArg Prod.fst hsend] at hst
        simp only [pre3of, List.mem_append, List.mem_cons,
          List.not_mem_nil, or_false] at hst
        have hfin : phOk (afterFinalize s (jsTrim text) sr).messages :=
          phOk_of_noPh _ (afterFinalize_noPh s (jsTrim text) sr)
        rcases hst with ((rfl | rfl | rfl) | hsn) | rfl | rfl | rfl
        · exact hOk0
        · exact hOkU
        · exact hOkU
        · obtain ⟨t, hms⟩ := loopOf_snaps_shape s (jsTrim text) sr hnoPh st hsn
          rw [hms]
          exact phOk_base_ph _ _ hnoPhu
        · show phOk (loopOf s (jsTrim text) sr).state.messages
          rcases loopOf_msgs s (jsTrim text) sr hnoPh with hms | ⟨t, hms⟩
          · rw [hms]
            exact hOkU
          · rw [hms]
            exact phOk_base_ph _ _ hnoPhu
        · exact hfin
        · exact hfin

/-- Witness for C2's amended claim: both conjuncts instantiated on the
concrete successful run. -/
theorem placeholder_invariant_amended_witness :
    WFMsgs (afterLoading demoState).messages ∧
    phOk (afterLoading demoState).messages :=
  ⟨placeholder_invariant_amended.1 [83] demoEnvGood demoState [104] (by decide)
     (afterLoading demoState) (by decide),
   placeholder_invariant_amended.2 [83] demoEnvGood demoState [104]
     ⟨true, true, [[0xE2], [0x9C, 0x93]], none⟩ ⟨true, 200, .val ⟨some demoInference, none⟩⟩
     ⟨some demoInference, none⟩ rfl rfl rfl rfl rfl (by decide)
     (afterLoading demoState) (by decide)⟩

/-- C7 (corrected): counterexample — a classification-step failure *does*
surface to the user: with a successful stream but a non-success (500)
classification response, the client throws and appends a visible assistant
message `"Request failed: 500"`. -/
theorem classification_failure_surfaces_cex :
    ((send [83] demoEnvInferFail demoState [104]).1.getLast?).map
      (fun q => q.messages.map (fun m => (m.role, m.content))) =
      some [(ChatRole.user, [104]), (ChatRole.assistant, [104]),
            (ChatRole.assistant, requestFailedText 500)] := by
  decide

/-- C7 (amended): classification failures *inside the endpoint* are fully
absorbed: `extractInference` resolves to the unknown result (all three
fields empty) when the upstream call throws or its output fails to parse,
and the `inferOnly` handler still answers 200 with that inference, so no
error reaches the client and no user-visible message is produced; when the
classification response reaches the client successfully, the primary flow
completes — the final state carries the classification, clears `isLoading`,
and appends no message beyond the finalized assistant reply.  (A transport
failure of the classification request itself, however, is surfaced by the
generic error path as an assistant message — see the counterexample.) -/
theorem classification_best_effort_amended :
    (∀ (senv : ServerEnv) (hist : List APIMsg) (la : List Nat),
       senv.inferUpstream = .fail →
       extractInference senv hist la = unknownInference) ∧
    (∀ (senv : ServerEnv) (hist : List APIMsg) (la : List Nat)
       (t : Option (List Nat)),
       senv.inferUpstream = .ok t → senv.parseInference (t.getD []) = none →
       extractInference senv hist la = unknownInference) ∧
    (∀ (senv : ServerEnv) (body : ServerReqBody) (k : List Nat),
       senv.apiKey = some k → body.inferOnly = true →
       senv.inferUpstream = .fail →
       POST senv body = ApiResponse.json 200 ⟨none, some unknownInference,
         none, none⟩) ∧
    (∀ (sys : List Nat) (env : Env) (s : ConvState) (text : List Nat)
       (sr : StreamRes) (ir : InferRes) (data : InferData) (inf : Inference),
       env.streamRes = .val sr → effMidErr sr = none →
       env.inferRes = .val ir → ir.json = .val data → ir.ok = true →
       data.inference = some inf →
       ¬(jsTrim text = [] ∨ s.isLoading = true) →
       ∃ q, (send sys env s text).1.getLast? = some q ∧
         q.inference = some inf ∧ q.isLoading = false ∧
         q.messages = (afterFinalize s (jsTrim text) sr).messages) := by
  refine ⟨?_, ?_, ?_, ?_⟩
  · intro senv hist la h
    simp only [extractInference, h]
  · intro senv hist la t h hp
    simp only [extractInference, h, hp]
  · intro senv body k hk hio hfail
    simp only [POST, hk, hio, if_true, extractInference, hfail]
  · intro sys env s text sr ir data inf henv hmid hi hj hok hd hg
    rcases send_trace_cases sys env s text hg with
        ⟨e, he, hsend⟩ | ⟨sr', e, he, hm, hsend⟩ | ⟨sr', e, he, hm, hc, hsend⟩ |
        ⟨sr', ir', data', inf', he, hm, hi', hj', hok', hd', hsend⟩ |
        ⟨sr', ir', data', he, hm, hi', hj', hok', hd', hsend⟩
    · rw [henv] at he
      cases he
    · rw [henv] at he
      injection he with hsr
      subst hsr
      rw [hmid] at hm
      cases hm
    · rw [henv] at he
      injection he with hsr
      subst hsr
      rw [hi] at hc
      simp only [classifyThrow, hj, if_pos hok] at hc
      exact Option.noConfusion hc
    · rw [henv] at he
      injection he with hsr
      subst hsr
      rw [hi] at hi'
      injection hi' with hir
      subst hir
      rw [hj] at hj'
      injection hj' with hdata
      subst hdata
      rw [hd] at hd'
      injection hd' with hinf
      subst hinf
      refine ⟨clearLoading (afterInference s (jsTrim text) sr inf), ?_, rfl, rfl, rfl⟩
      rw [congrArg Prod.fst hsend]
      simp
    · rw [henv] at he
      injection he with hsr
      subst hsr
      rw [hi] at hi'
      injection hi' with hir
      subst hir
      rw [hj] at hj'
      injection hj' with hdata
      subst hdata
      rw [hd] at hd'
      cases hd'

/-- Witness for C7's amended claim: server-side absorption at a failing
upstream, and client-side completion at the concrete successful run. -/
theorem classification_best_effort_amended_witness :
    extractInference demoSrvEnv [] [] = unknownInference ∧
    ∃ q, (send [83] demoEnvGood demoState [104]).1.getLast? = some q ∧
      q.inference = some demoInference ∧ q.isLoading = false ∧
      q.messages = (afterFinalize demoState (jsTrim [104])
        ⟨true, true, [[0xE2], [0x9C, 0x93]], none⟩).messages :=
  ⟨classification_best_effort_amended.1 demoSrvEnv [] [] rfl,
   classification_best_effort_amended.2.2.2 [83] demoEnvGood demoState [104]
     ⟨true, true, [[0xE2], [0x9C, 0x93]], none⟩
     ⟨true, 200, .val ⟨some demoInference, none⟩⟩ ⟨some demoInference, none⟩
     demoInference rfl rfl rfl rfl rfl rfl (by decide)⟩
